import Mathlib

/-!
# Verification of the generic `derive` expansion engine

A shallow embedding of `compiler/rustc_builtin_macros/src/deriving/generic/mod.rs`:
the trait-implementation synthesizer that turns a trait description plus a type
shape (struct / enum / union) into a synthesized `impl`.

Conventions of the embedding:
* identifiers are plain strings (`Ident`), source locations are abstract
  numbers (`Span`);
* the mutable `ExtCtxt` of the compiler is split into its two capabilities:
  diagnostics become explicit lists of `DiagM` values returned next to results
  (`span_err` appends and continues), and `span_bug`/`assert!` failures become
  `Except DeriveBug` results;
* generated Rust code is reified into small `ExprM`/`StmtM`/`PatM` types; the
  caller-supplied `combine_substructure` callback becomes a function argument
  `cs : SubstructureFieldsG ExprM → BlockOrExprM`;
* runtime enum values are abstracted to their variant index together with the
  field arity (the generated code inspected here never reads field contents
  before reaching combinator-produced code, at which point evaluation stops
  and reports which combinator invocation was reached).
-/

namespace DerivingGeneric

abbrev Ident := String
abbrev Span := Nat

/-! ## Field types, as traversed by bound inference (`ast::Ty` fragment)

A path type is a list of segments, each an identifier with its generic type
arguments (`Vec<T>` is `path [("Vec", [path [("T", [])]])]`).  `macCall`
mirrors `TyKind::MacCall`.  The embedded fragment contains no binder forms
(`for<'a> ...`), so the `bound_generic_params` stack of the visitor stays
empty; it is nevertheless threaded, mirroring the source. -/
inductive AstTy where
  | path (segments : List (Ident × List AstTy))
  | macCall (sp : Span)
deriving Repr

/-- Mirrors `struct TypeParameter` (mod.rs line 306). -/
structure TypeParameter where
  bound_generic_params : List Ident
  ty : AstTy
deriving Repr

/-! `find_type_parameters` (mod.rs lines 357-416).  The visitor's two pieces of
output are the collected `TypeParameter`s and the `span_err` diagnostics
raised by `visit_mac_call`; both are returned.  `visit_ty` records a hit when
the first path segment is a declared parameter name, then keeps walking into
the segments' generic arguments (`visit::walk_ty`). -/

mutual
def findTypeParametersTy (tyParamNames : List Ident) (stack : List Ident) :
    AstTy → List TypeParameter × List Span
  | .path segments =>
      let hit :=
        match segments with
        | [] => false
        | (seg, _) :: _ => tyParamNames.contains seg
      let rest := findTypeParametersSegs tyParamNames stack segments
      (if hit then ⟨stack, .path segments⟩ :: rest.1 else rest.1, rest.2)
  | .macCall sp => ([], [sp])

def findTypeParametersSegs (tyParamNames : List Ident) (stack : List Ident) :
    List (Ident × List AstTy) → List TypeParameter × List Span
  | [] => ([], [])
  | (_, args) :: rest =>
      let a := findTypeParametersArgs tyParamNames stack args
      let r := findTypeParametersSegs tyParamNames stack rest
      (a.1 ++ r.1, a.2 ++ r.2)

def findTypeParametersArgs (tyParamNames : List Ident) (stack : List Ident) :
    List AstTy → List TypeParameter × List Span
  | [] => ([], [])
  | t :: rest =>
      let a := findTypeParametersTy tyParamNames stack t
      let r := findTypeParametersArgs tyParamNames stack rest
      (a.1 ++ r.1, a.2 ++ r.2)
end

/-- `find_type_parameters` proper: starts the visitor with an empty
bound-generic-params stack. -/
def find_type_parameters (ty : AstTy) (tyParamNames : List Ident) :
    List TypeParameter × List Span :=
  findTypeParametersTy tyParamNames [] ty

-- Does a type contain a `MacCall` node anywhere?  (Specification-side
-- predicate used to state when `visit_mac_call` fires.)
mutual
def AstTy.hasMacCall : AstTy → Bool
  | .path segments => AstTy.hasMacCallSegs segments
  | .macCall _ => true

def AstTy.hasMacCallSegs : List (Ident × List AstTy) → Bool
  | [] => false
  | (_, args) :: rest => AstTy.hasMacCallArgs args || AstTy.hasMacCallSegs rest

def AstTy.hasMacCallArgs : List AstTy → Bool
  | [] => false
  | t :: rest => t.hasMacCall || AstTy.hasMacCallArgs rest
end

/-! ## The where-predicate loop of `create_derived_impl` (mod.rs lines 659-704) -/

/-- A generated where-clause predicate; only the parts the source computes from
`find_type_parameters` output are kept (the bounds attached are always
`additional_bounds ∪ {the trait}`, identical for every predicate). -/
structure WherePredicateM where
  bound_generic_params : List Ident
  bounded_ty : AstTy
deriving Repr

/-- The skip test of mod.rs lines 676-681: an occurrence that is a path of
exactly one segment whose identifier is a declared type parameter is already
covered by the top-level per-parameter bound. -/
def isBareTypeParam (tyParamNames : List Ident) : AstTy → Bool
  | .path segments =>
      segments.length == 1 &&
        (match segments with
         | (seg, _) :: _ => tyParamNames.contains seg
         | [] => false)
  | .macCall _ => false

/-- The loop body of mod.rs lines 674-701 for one field type: collect the
occurrences, drop the bare-parameter ones, and turn the rest into
where-predicates. -/
def fieldWherePredicates (tyParamNames : List Ident) (fieldTy : AstTy) :
    List WherePredicateM :=
  ((find_type_parameters fieldTy tyParamNames).1.filter
      (fun tp => !isBareTypeParam tyParamNames tp.ty)).map
    (fun tp => WherePredicateM.mk tp.bound_generic_params tp.ty)

/-- The loop of mod.rs lines 667-703: run only when there is at least one type
parameter; predicates and traversal diagnostics are accumulated across the
field types. -/
def derivedWherePredicates (tyParamNames : List Ident) (fieldTys : List AstTy) :
    List WherePredicateM × List Span :=
  if tyParamNames.isEmpty then ([], [])
  else
    fieldTys.foldl
      (fun acc fieldTy =>
        (acc.1 ++ fieldWherePredicates tyParamNames fieldTy,
         acc.2 ++ (find_type_parameters fieldTy tyParamNames).2))
      ([], [])

/-! ## Type shapes (`ast` fragment) -/

/-- One declared field (`ast::FieldDef` fragment): optional name, location,
declared type. -/
structure FieldDefM where
  ident : Option Ident
  span : Span
  ty : AstTy
deriving Repr

/-- `ast::VariantData`: braced struct, tuple struct, or unit. -/
inductive VariantDataM where
  | structKind (fields : List FieldDefM)
  | tupleKind (fields : List FieldDefM)
  | unitKind
deriving Repr

def VariantDataM.fields : VariantDataM → List FieldDefM
  | .structKind fs => fs
  | .tupleKind fs => fs
  | .unitKind => []

/-- `ast::Variant` fragment: name, location, field data. -/
structure VariantM where
  ident : Ident
  span : Span
  data : VariantDataM
deriving Repr

/-- `ast::EnumDef` fragment. -/
structure EnumDefM where
  variants : List VariantM
deriving Repr

/-! ## `StaticFields` and `summarise_struct` (mod.rs lines 269-274, 1425-1448) -/

inductive StaticFields where
  /-- Tuple and unit structs/enum variants. -/
  | Unnamed (spans : List Span) (isTuple : Bool)
  /-- Normal structs/struct variants. -/
  | Named (entries : List (Ident × Span))
deriving Repr

/-- Fatal internal failures (`cx.span_bug` / `assert!` in the source). -/
inductive DeriveBug where
  /-- "a struct with named and unnamed fields in generic `derive`" -/
  | malformedFieldShape
  /-- the `assert!(selflike_args.len() == 1 || selflike_args.len() == 2)` of
  `expand_struct_method_body` -/
  | selflikeCountAssertion
  /-- "static function in `derive`" (`cs_fold` on a static substructure) -/
  | staticFold
deriving Repr, DecidableEq

/-- The field-partitioning loop of `summarise_struct`: pushes named fields
onto one list and unnamed field spans onto another, in declaration order. -/
def partitionFieldSummary : List FieldDefM → List (Ident × Span) × List Span
  | [] => ([], [])
  | f :: rest =>
      let acc := partitionFieldSummary rest
      match f.ident with
      | some ident => ((ident, f.span) :: acc.1, acc.2)
      | none => (acc.1, f.span :: acc.2)

/-- `matches!(struct_def, ast::VariantData::Tuple(..))`. -/
def VariantDataM.isTuple : VariantDataM → Bool
  | .tupleKind _ => true
  | .structKind _ => false
  | .unitKind => false

/-- `TraitDef::summarise_struct` (mod.rs lines 1425-1448).  The source
matches on `(just_spans.is_empty(), named_idents.is_empty())` with ordered
wildcard patterns; the four cases are spelled out here. -/
def summarise_struct (struct_def : VariantDataM) : Except DeriveBug StaticFields :=
  let acc := partitionFieldSummary struct_def.fields
  match acc.2.isEmpty, acc.1.isEmpty with
  | false, false => .error .malformedFieldShape
  | true, false => .ok (.Named acc.1)
  | false, true => .ok (.Unnamed acc.2 struct_def.isTuple)
  | true, true => .ok (.Named [])

/-! ## Reified generated code

Patterns first (`ast::Pat` fragment as produced by `create_struct_patterns`):
binder patterns carry the by-value flag (`use_temporaries`) and the fresh
binder name; struct / tuple-struct / path patterns carry the constructor path
(`[type ident, variant ident]` for enum arms, `[Self]` for packed structs). -/
inductive PatM where
  | identPat (byValue : Bool) (binder : Ident)
  | structPat (path : List Ident) (fieldPats : List (Ident × PatM))
  | tupleStructPat (path : List Ident) (subpats : List PatM)
  | pathPat (path : List Ident)
  | refPat (p : PatM)
  | tupPat (ps : List PatM)
  | wildPat
deriving Repr

/-- One FieldInfo (mod.rs lines 255-266), generic over the expression type. -/
structure FieldInfoG (α : Type) where
  span : Span
  name : Option Ident
  self_expr : α
  other_selflike_exprs : List α
deriving Repr

/-- `SubstructureFields` (mod.rs lines 277-293), generic over the expression
type so it can be nested inside the expression type itself (the combinator's
output may mention the substructure it was invoked with). -/
inductive SubstructureFieldsG (α : Type) where
  | Struct (struct_def : VariantDataM) (fields : List (FieldInfoG α))
  | EnumMatching (index : Nat) (variantCount : Nat) (variant : VariantM)
      (fields : List (FieldInfoG α))
  | EnumNonMatchingCollapsed (viIdents : List Ident)
  | StaticStruct (struct_def : VariantDataM) (summary : StaticFields)
  | StaticEnum (enum_def : EnumDefM) (summaries : List (Ident × Span × StaticFields))
deriving Repr

mutual
/-- Generated expressions: the `ast::Expr` fragment the engine emits.
`combCall s` stands for the expression produced by the trait's
`combine_substructure` callback when invoked with substructure `s` (the
marker instantiation used by the reachability theorems); `unreachableE` is
`deriving::call_unreachable`, `discValue` is the `discriminant_value`
intrinsic call. -/
inductive ExprM where
  | identE (i : Ident)
  | derefE (e : ExprM)
  | addrOf (e : ExprM)
  | fieldAcc (base : ExprM) (fld : Ident)
  | tupE (es : List ExprM)
  | boolLit (b : Bool)
  | binopEq (a b : ExprM)
  | binopAnd (a b : ExprM)
  | discValue (arg : ExprM)
  | unreachableE
  | ifE (c t e : ExprM)
  | matchE (scrut : ExprM) (arms : List (PatM × ExprM))
  | combCall (s : SubstructureFieldsG ExprM)
  | blockE (stmts : List StmtM) (trailing : Option ExprM)

/-- Generated statements. -/
inductive StmtM where
  | letPatS (p : PatM) (rhs : ExprM)
  | letIdS (i : Ident) (rhs : ExprM)
  | exprS (e : ExprM)
end

abbrev FieldInfoM := FieldInfoG ExprM
abbrev SubstructureFieldsM := SubstructureFieldsG ExprM

/-- `BlockOrExpr` (mod.rs lines 317-351): statements plus optional trailing
expression. -/
structure BlockOrExprM where
  stmts : List StmtM
  expr : Option ExprM

def BlockOrExprM.new_stmts (stmts : List StmtM) : BlockOrExprM := ⟨stmts, none⟩
def BlockOrExprM.new_expr (e : ExprM) : BlockOrExprM := ⟨[], some e⟩
def BlockOrExprM.new_mixed (stmts : List StmtM) (e : ExprM) : BlockOrExprM := ⟨stmts, some e⟩

/-- `BlockOrExpr::into_expr`: with no statements yield the expression itself
(or an empty block); otherwise wrap everything into a block expression
(`into_block` appends the trailing expression, which `blockE` keeps as its
trailing component). -/
def BlockOrExprM.into_expr : BlockOrExprM → ExprM
  | ⟨[], some e⟩ => e
  | ⟨[], none⟩ => .blockE [] none
  | ⟨stmts, oe⟩ => .blockE stmts oe

/-! ## Field and pattern construction (mod.rs lines 1450-1591) -/

/-- `TraitDef::mk_pattern_ident`. -/
def mk_pattern_ident (pre : String) (i : Nat) : Ident := pre ++ "_" ++ toString i

/-- `TraitDef::create_struct_patterns`: one pattern per prefix, binding every
field of `struct_def` to `mk_pattern_ident prefix i` (by value when
`use_temporaries`, by reference otherwise).  In the source a braced struct
with an unnamed field is a `span_bug`; the embedding substitutes a dummy
field name there (such field lists are rejected upstream, cf.
`summarise_struct`). -/
def create_struct_pattern_one (struct_path : List Ident) (struct_def : VariantDataM)
    (pre : String) (use_temporaries : Bool) : PatM :=
  let pieces := struct_def.fields.enum.map fun p =>
    (p.2.span, p.2.ident, PatM.identPat use_temporaries (mk_pattern_ident pre p.1))
  match struct_def with
  | .structKind _ =>
      .structPat struct_path
        (pieces.map fun piece => (piece.2.1.getD "<unnamed>", piece.2.2))
  | .tupleKind _ => .tupleStructPat struct_path (pieces.map fun piece => piece.2.2)
  | .unitKind => .pathPat struct_path

def create_struct_patterns (struct_path : List Ident) (struct_def : VariantDataM)
    (prefixes : List String) (use_temporaries : Bool) : List PatM :=
  prefixes.map fun pre => create_struct_pattern_one struct_path struct_def pre use_temporaries

/-- `TraitDef::create_fields`: one `FieldInfo` per field; the first expression
produced by `mk_exprs` is the `self` expression, the rest belong to the other
selflike arguments. -/
def create_fields (struct_def : VariantDataM) (mk_exprs : Nat → FieldDefM → Span → List ExprM) :
    List FieldInfoM :=
  struct_def.fields.enum.map fun p =>
    let exprs := mk_exprs p.1 p.2 p.2.span
    { span := p.2.span
      name := p.2.ident
      self_expr := exprs.headD (.tupE [])
      other_selflike_exprs := exprs.tail }

/-- `TraitDef::create_struct_pattern_fields`: field expressions referencing
the binders introduced by `create_struct_patterns` (dereferenced unless bound
by value). -/
def create_struct_pattern_fields (struct_def : VariantDataM) (prefixes : List String)
    (use_temporaries : Bool) : List FieldInfoM :=
  create_fields struct_def fun i _ sp =>
    let _ := sp
    prefixes.map fun pre =>
      let e := ExprM.identE (mk_pattern_ident pre i)
      if use_temporaries then e else .derefE e

/-- Strip one leading dereference ("We don't need the deref, if there is
one"). -/
def stripDeref : ExprM → ExprM
  | .derefE inner => inner
  | e => e

/-- `TraitDef::create_struct_field_access_fields`: direct field access
(`arg.fld` / `arg.i`) on each selflike argument. -/
def create_struct_field_access_fields (selflike_args : List ExprM)
    (struct_def : VariantDataM) : List FieldInfoM :=
  create_fields struct_def fun i fld _ =>
    selflike_args.map fun arg =>
      .fieldAcc (stripDeref arg) (fld.ident.getD (toString i))

/-! ## Per-method expansion (mod.rs lines 874-1421)

`MethodDef`'s `combine_substructure` callback is modelled as an explicit
function argument `cs` of the expansion functions (`call_substructure_method`
is the application of `cs`). -/

structure MethodDefM where
  name : Ident
  explicit_self : Bool
  unify_fieldless_variants : Bool

def MethodDefM.is_static (md : MethodDefM) : Bool := !md.explicit_self

/-- The per-argument name prefixes of `expand_enum_method_body` (mod.rs lines
1164-1172): `__self` for the receiver, `__arg_k` for the k-th further
selflike argument. -/
def enumPrefixes (selflike_args : List ExprM) : List String :=
  "__self" :: (selflike_args.enum.drop 1).map fun p => "__arg_" ++ toString p.1

/-- The discriminant binding names (mod.rs lines 1177-1183): one `<name>_vi`
ident per prefix. -/
def enumViIdents (selflike_args : List ExprM) : List Ident :=
  (enumPrefixes selflike_args).map fun name => name ++ "_vi"

/-- One arm of the per-variant match (mod.rs lines 1202-1256):
`(&VariantK, &VariantK, ...) => combinator(EnumMatching(k, n, VariantK, fields))`
for the index-tagged variant `p`. -/
def enumVariantArm (type_ident : Ident) (ed : EnumDefM) (prefixes : List String)
    (cs : SubstructureFieldsM → BlockOrExprM) (p : Nat × VariantM) : PatM × ExprM :=
  let index := p.1
  let variant := p.2
  let fields := create_struct_pattern_fields variant.data prefixes false
  let variant_path := [type_ident, variant.ident]
  let subpats :=
    (create_struct_patterns variant_path variant.data prefixes false).map PatM.refPat
  let single_pat := match subpats with | [pt] => pt | ps => PatM.tupPat ps
  let substructure :=
    SubstructureFieldsG.EnumMatching index ed.variants.length variant fields
  (single_pat, (cs substructure).into_expr)

/-- The per-variant match arms (mod.rs lines 1198-1257): one arm per variant
— except that variants with no fields are dropped when the method unifies
fieldless variants. -/
def expandEnumMatchArms (md : MethodDefM) (type_ident : Ident) (ed : EnumDefM)
    (prefixes : List String) (cs : SubstructureFieldsM → BlockOrExprM) :
    List (PatM × ExprM) :=
  (ed.variants.enum.filter fun p =>
      !(md.unify_fieldless_variants && p.2.data.fields.isEmpty)).map
    (enumVariantArm type_ident ed prefixes cs)

/-- The default arm (mod.rs lines 1259-1283): the shared fieldless arm when
unification applies, otherwise a defensive unreachable catch-all in the
multi-argument multi-variant case, otherwise nothing. -/
def expandEnumDefaultArm (md : MethodDefM) (ed : EnumDefM) (selflike_args : List ExprM)
    (cs : SubstructureFieldsM → BlockOrExprM) : Option ExprM :=
  match ed.variants.find? (fun v => v.data.fields.isEmpty) with
  | some v =>
      if md.unify_fieldless_variants then
        some ((cs (.EnumMatching 0 ed.variants.length v [])).into_expr)
      else if ed.variants.length > 1 && selflike_args.length > 1 then
        some .unreachableE
      else none
  | none =>
      if ed.variants.length > 1 && selflike_args.length > 1 then
        some .unreachableE
      else none

/-- One iteration of the discriminant loop (mod.rs lines 1319-1340): `p` is
the enumerated pair of the binding ident and the selflike argument
expression. -/
def discCheckStep (vi_idents : List Ident) (acc : List StmtM × ExprM)
    (p : Nat × Ident × ExprM) : List StmtM × ExprM :=
  let i := p.1
  let ident := p.2.1
  let selflike_arg := p.2.2
  let variant_value := ExprM.discValue (.addrOf selflike_arg)
  let stmts := acc.1 ++ [StmtM.letIdS ident variant_value]
  let test' :=
    if i > 0 then
      let test := ExprM.binopEq (.identE (vi_idents.headD "")) (.identE ident)
      if i == 1 then test else .binopAnd acc.2 test
    else acc.2
  (stmts, test')

/-- The discriminant bindings and the all-discriminants-equal test (mod.rs
lines 1314-1340): one `let <vi> = discriminant_value(&<arg>)` per selflike
argument, and the conjunction `vi0 == vi1 && vi0 == vi2 && ...` (literal
`true` when no comparison was emitted). -/
def buildDiscriminantCheck (vi_idents : List Ident) (selflike_args : List ExprM) :
    List StmtM × ExprM :=
  ((vi_idents.zip selflike_args).enum).foldl (discCheckStep vi_idents)
    ([], ExprM.boolLit true)

/-- `MethodDef::expand_enum_method_body` (mod.rs lines 1152-1394). -/
def expand_enum_method_body (md : MethodDefM) (type_ident : Ident) (ed : EnumDefM)
    (selflike_args : List ExprM) (cs : SubstructureFieldsM → BlockOrExprM) :
    BlockOrExprM :=
  let variants := ed.variants
  let prefixes := enumPrefixes selflike_args
  let vi_idents := enumViIdents selflike_args
  let catch_all_substructure := SubstructureFieldsG.EnumNonMatchingCollapsed vi_idents
  let match_arms := expandEnumMatchArms md type_ident ed prefixes cs
  let match_arms :=
    match expandEnumDefaultArm md ed selflike_args cs with
    | some arm => match_arms ++ [(PatM.wildPat, arm)]
    | none => match_arms
  if variants.length > 1 && selflike_args.length > 1 then
    let checks := buildDiscriminantCheck vi_idents selflike_args
    let arm_expr := (cs catch_all_substructure).into_expr
    let selflike_args' := selflike_args.map ExprM.addrOf
    let match_arg := ExprM.tupE selflike_args'
    let all_match := ExprM.matchE match_arg match_arms
    ⟨checks.1, some (.ifE checks.2 all_match arm_expr)⟩
  else if variants.isEmpty then
    ⟨[], some .unreachableE⟩
  else
    let selflike_args' := selflike_args.map ExprM.addrOf
    let match_arg := match selflike_args' with | [e] => e | es => ExprM.tupE es
    ⟨[], some (.matchE match_arg match_arms)⟩

/-- The per-argument prefixes of the packed branch of
`expand_struct_method_body` (mod.rs line 1063). -/
def structPrefixes (n : Nat) : List String :=
  (List.range n).map fun i => "__self_" ++ toString i

/-- `MethodDef::expand_struct_method_body` (mod.rs lines 1034-1088).  The
opening `assert!(selflike_args.len() == 1 || selflike_args.len() == 2)`
becomes the `selflikeCountAssertion` failure. -/
def expand_struct_method_body (struct_def : VariantDataM) (type_ident : Ident)
    (selflike_args : List ExprM) (use_temporaries is_packed : Bool)
    (cs : SubstructureFieldsM → BlockOrExprM) : Except DeriveBug BlockOrExprM :=
  let _ := type_ident
  if !(selflike_args.length == 1 || selflike_args.length == 2) then
    .error .selflikeCountAssertion
  else
    let mk_body := fun selflike_fields =>
      cs (.Struct struct_def selflike_fields)
    if !is_packed then
      .ok (mk_body (create_struct_field_access_fields selflike_args struct_def))
    else
      let prefixes := structPrefixes selflike_args.length
      let selflike_fields := create_struct_pattern_fields struct_def prefixes use_temporaries
      let body := mk_body selflike_fields
      let struct_path : List Ident := ["Self"]
      let patterns := create_struct_patterns struct_path struct_def prefixes use_temporaries
      let stmts := (selflike_args.zip patterns).map fun p => StmtM.letPatS p.2 p.1
      .ok ⟨stmts ++ body.stmts, body.expr⟩

/-- `MethodDef::expand_static_struct_method_body` (mod.rs lines 1090-1107). -/
def expand_static_struct_method_body (struct_def : VariantDataM)
    (cs : SubstructureFieldsM → BlockOrExprM) : Except DeriveBug BlockOrExprM :=
  (summarise_struct struct_def).map fun summary =>
    cs (.StaticStruct struct_def summary)

/-- `MethodDef::expand_static_enum_method_body` (mod.rs lines 1396-1420). -/
def expand_static_enum_method_body (ed : EnumDefM)
    (cs : SubstructureFieldsM → BlockOrExprM) : Except DeriveBug BlockOrExprM :=
  (ed.variants.mapM fun v =>
      (summarise_struct v.data).map fun summary => (v.ident, v.span, summary)).map
    fun summaries => cs (.StaticEnum ed summaries)

/-! ## The fold combinator `cs_fold` (mod.rs lines 1594-1655) -/

/-- `CsFold`: the shapes handed to the per-trait folding function. -/
inductive CsFoldM where
  | Single (field : FieldInfoM)
  | Combine (sp : Span) (old new : ExprM)
  | Fieldless
  | EnumNonMatching (sp : Span) (viIdents : List Ident)

/-- The fields branch of `cs_fold`: base field is the first (left fold) or
last (right fold) field; the remaining fields are folded in with
`Combine(span, accumulated, current)` in the chosen direction (`rfold`
processes the remaining fields back to front). -/
def csFoldFields (use_foldl : Bool) (f : CsFoldM → ExprM) : List FieldInfoM → ExprM
  | [] => f .Fieldless
  | x :: xs =>
      let base_field := if use_foldl then x else (x :: xs).getLast (by simp)
      let rest := if use_foldl then xs else (x :: xs).dropLast
      let base_expr := f (.Single base_field)
      let op := fun old (field : FieldInfoM) => f (.Combine field.span old (f (.Single field)))
      if use_foldl then rest.foldl op base_expr
      else rest.foldr (fun field acc => op acc field) base_expr

/-- `cs_fold` (mod.rs lines 1617-1655).  Statics may not be folded over:
that is the `staticFold` bug. -/
def cs_fold (use_foldl : Bool) (trait_span : Span) (substructure : SubstructureFieldsM)
    (f : CsFoldM → ExprM) : Except DeriveBug ExprM :=
  match substructure with
  | .EnumMatching _ _ _ all_fields => .ok (csFoldFields use_foldl f all_fields)
  | .Struct _ all_fields => .ok (csFoldFields use_foldl f all_fields)
  | .EnumNonMatchingCollapsed tuple => .ok (f (.EnumNonMatching trait_span tuple))
  | .StaticEnum _ _ => .error .staticFold
  | .StaticStruct _ _ => .error .staticFold

/-! ## The synthesizer pipeline (mod.rs lines 418-871)

`create_derived_impl` is modelled on the parts the claims are about: the
attribute list placed on the generated impl and the inferred where-clause
predicates (the where-predicate loop of lines 659-704).  Generic-parameter
rewriting and method assembly, which only reshuffle their inputs, are out of
the modelled fragment; method bodies are produced by the
`expand_*_method_body` functions above. -/

/-- An attribute: a bare word (`#[automatically_derived]`) or a list
(`#[allow(unused_qualifications)]`). -/
inductive AttrM where
  | word (name : Ident)
  | list (name : Ident) (items : List Ident)
deriving Repr, DecidableEq

/-- `name_or_empty` of an attribute. -/
def AttrM.name : AttrM → Ident
  | .word n => n
  | .list n _ => n

/-- The `TraitDef` fragment the modelled pipeline reads. -/
structure TraitDefM where
  span : Span
  attributes : List AttrM
  pathName : Ident
  supports_unions : Bool

/-- The produced impl item (modelled fragment): its attributes and the
inferred where-clause predicates. -/
structure ImplDeclM where
  attrs : List AttrM
  wherePredicates : List WherePredicateM

/-- Diagnostics reported through `cx.span_err` (non-fatal: expansion
continues after reporting). -/
inductive DiagM where
  /-- "this trait cannot be derived for unions" -/
  | unsupportedUnionDerive (sp : Span)
  /-- "`derive` cannot be used on items with type macros" -/
  | typeMacDiag (sp : Span)
deriving Repr, DecidableEq

/-- `TraitDef::create_derived_impl` (mod.rs lines 553-760): runs the
where-predicate loop over the field types and builds the impl item whose
attribute list is `#[automatically_derived]`, then
`#[allow(unused_qualifications)]`, then the trait's own attributes
(lines 731-743). -/
def create_derived_impl (td : TraitDefM) (tyParamNames : List Ident)
    (field_tys : List AstTy) : ImplDeclM × List DiagM :=
  let found := derivedWherePredicates tyParamNames field_tys
  let attrs := AttrM.word "automatically_derived" ::
    AttrM.list "allow" ["unused_qualifications"] :: td.attributes
  (⟨attrs, found.1⟩, found.2.map DiagM.typeMacDiag)

/-- `TraitDef::expand_struct_def` at the impl level (mod.rs lines 762-816):
field types are the struct's field types. -/
def expand_struct_def (td : TraitDefM) (struct_def : VariantDataM)
    (tyParamNames : List Ident) : ImplDeclM × List DiagM :=
  create_derived_impl td tyParamNames (struct_def.fields.map (fun f => f.ty))

/-- `TraitDef::expand_enum_def` at the impl level (mod.rs lines 818-871):
field types are flattened across all variants. -/
def expand_enum_def (td : TraitDefM) (ed : EnumDefM) (tyParamNames : List Ident) :
    ImplDeclM × List DiagM :=
  create_derived_impl td tyParamNames
    (ed.variants.flatMap fun v => v.data.fields.map (fun f => f.ty))

/-- The item kinds `expand_ext` accepts (`_ => unreachable!()` otherwise). -/
inductive ItemKindM where
  | structK (struct_def : VariantDataM) (tyParamNames : List Ident)
  | enumK (enum_def : EnumDefM) (tyParamNames : List Ident)
  | unionK (struct_def : VariantDataM) (tyParamNames : List Ident)

/-- The annotated item. -/
structure ItemM where
  ident : Ident
  attrs : List AttrM
  kind : ItemKindM

/-- The lint-classification attribute allow-list of mod.rs lines 503-512. -/
def lintAttrNames : List Ident := ["allow", "warn", "deny", "forbid", "stable", "unstable"]

/-- Mod.rs lines 497-516: the new item keeps its own attributes and inherits
the lint-classification attributes of the original item. -/
def keepLintAttrs (impl : ImplDeclM) (item : ItemM) : ImplDeclM :=
  { impl with
    attrs := impl.attrs ++ item.attrs.filter (fun a => lintAttrNames.contains a.name) }

/-- `TraitDef::expand_ext` (mod.rs lines 429-520): a union is expanded like a
struct when the trait supports unions, otherwise the derive reports
"this trait cannot be derived for unions" and returns without pushing an
item.  The first component is the pushed impl (if any), the second the
diagnostics reported along the way. -/
def expand_ext (td : TraitDefM) (item : ItemM) : Option ImplDeclM × List DiagM :=
  match item.kind with
  | .structK struct_def tyParamNames =>
      let r := expand_struct_def td struct_def tyParamNames
      (some (keepLintAttrs r.1 item), r.2)
  | .enumK enum_def tyParamNames =>
      let r := expand_enum_def td enum_def tyParamNames
      (some (keepLintAttrs r.1 item), r.2)
  | .unionK struct_def tyParamNames =>
      if td.supports_unions then
        let r := expand_struct_def td struct_def tyParamNames
        (some (keepLintAttrs r.1 item), r.2)
      else
        (none, [.unsupportedUnionDerive td.span])

/-! ## Evaluation semantics for generated enum method bodies

A small-step-free denotational semantics for the expression fragment the
enum expansion emits.  A runtime value of the derived enum type is its
variant index together with its field arity (`enumv`); the discriminant of a
value is its variant index.  Evaluation stops as soon as it reaches an
expression produced by the `combine_substructure` callback (`combCall`),
reporting which substructure that invocation carried — this is the
"evaluation reaches the arm/branch built from the combinator invoked with X"
notion of the specification.  Binders introduced by match arms are not
entered (evaluation never proceeds past `combCall`), so arm patterns are
checked for shape only. -/

inductive RtVal where
  | enumv (vidx : Nat) (nfields : Nat)
  | intv (n : Nat)
  | boolv (b : Bool)
  | refv (v : RtVal)
  | tupv (vs : List RtVal)
deriving Repr

/-- The result of evaluating a generated expression. -/
inductive Outcome where
  | val (v : RtVal)
  | reached (s : SubstructureFieldsM)
  | unreachableHit
  | stuck

/-- Environment lookup; the most recent binding (list head) wins, matching
shadowing in the generated Rust. -/
def lookupEnv : List (Ident × RtVal) → Ident → Option RtVal
  | [], _ => none
  | (k, v) :: rest, i => if k = i then some v else lookupEnv rest i

/-- The variant identifier a runtime value of the enum holds. -/
def variantIdentAt (ed : EnumDefM) (vidx : Nat) : Option Ident :=
  (ed.variants.get? vidx).map fun v => v.ident

mutual
/-- Does a generated pattern match a runtime value?  Constructor paths match
on their final segment (the variant name); binder and wildcard patterns match
anything; arity is checked against the value's field count. -/
def patMatches (ed : EnumDefM) : PatM → RtVal → Bool
  | .identPat _ _, _ => true
  | .wildPat, _ => true
  | .refPat p, .refv v => patMatches ed p v
  | .tupPat ps, .tupv vs => patMatchesZip ed ps vs
  | .structPat path fieldPats, .enumv vidx nfields =>
      path.getLast? == variantIdentAt ed vidx && fieldPats.length == nfields
  | .tupleStructPat path subpats, .enumv vidx nfields =>
      path.getLast? == variantIdentAt ed vidx && subpats.length == nfields
  | .pathPat path, .enumv vidx nfields =>
      path.getLast? == variantIdentAt ed vidx && nfields == 0
  | _, _ => false

def patMatchesZip (ed : EnumDefM) : List PatM → List RtVal → Bool
  | [], [] => true
  | p :: ps, v :: vs => patMatches ed p v && patMatchesZip ed ps vs
  | _, _ => false
end

mutual
/-- Evaluate a generated expression. -/
def evalE (ed : EnumDefM) (env : List (Ident × RtVal)) : ExprM → Outcome
  | .identE i =>
      match lookupEnv env i with
      | some v => .val v
      | none => .stuck
  | .derefE e =>
      match evalE ed env e with
      | .val (.refv v) => .val v
      | .val _ => .stuck
      | o => o
  | .addrOf e =>
      match evalE ed env e with
      | .val v => .val (.refv v)
      | o => o
  | .fieldAcc _ _ => .stuck
  | .tupE es =>
      match evalEs ed env es with
      | .ok vs => .val (.tupv vs)
      | .error o => o
  | .boolLit b => .val (.boolv b)
  | .binopEq a b =>
      match evalE ed env a with
      | .val (.intv m) =>
          (match evalE ed env b with
           | .val (.intv n) => .val (.boolv (m == n))
           | .val _ => .stuck
           | o => o)
      | .val _ => .stuck
      | o => o
  | .binopAnd a b =>
      match evalE ed env a with
      | .val (.boolv false) => .val (.boolv false)
      | .val (.boolv true) =>
          (match evalE ed env b with
           | .val (.boolv bb) => .val (.boolv bb)
           | .val _ => .stuck
           | o => o)
      | .val _ => .stuck
      | o => o
  | .discValue e =>
      match evalE ed env e with
      | .val (.refv (.enumv vidx _)) => .val (.intv vidx)
      | .val _ => .stuck
      | o => o
  | .unreachableE => .unreachableHit
  | .ifE c t e =>
      match evalE ed env c with
      | .val (.boolv true) => evalE ed env t
      | .val (.boolv false) => evalE ed env e
      | .val _ => .stuck
      | o => o
  | .matchE scrut arms =>
      match evalE ed env scrut with
      | .val v => evalArms ed env v arms
      | o => o
  | .combCall s => .reached s
  | .blockE stmts trailing =>
      match runStmtsE ed env stmts with
      | .ok env' =>
          (match trailing with
           | some e => evalE ed env' e
           | none => .val (.tupv []))
      | .error o => o

/-- Evaluate a list of expressions to values (or propagate the first
non-value outcome). -/
def evalEs (ed : EnumDefM) (env : List (Ident × RtVal)) :
    List ExprM → Except Outcome (List RtVal)
  | [] => .ok []
  | e :: rest =>
      match evalE ed env e with
      | .val v =>
          (match evalEs ed env rest with
           | .ok vs => .ok (v :: vs)
           | .error o => .error o)
      | o => .error o

/-- Evaluate a match: the first arm whose pattern matches is taken. -/
def evalArms (ed : EnumDefM) (env : List (Ident × RtVal)) (v : RtVal) :
    List (PatM × ExprM) → Outcome
  | [] => .stuck
  | (p, body) :: rest =>
      if patMatches ed p v then evalE ed env body else evalArms ed env v rest

/-- Run generated statements, extending the environment (`let`-pattern
binders are not modelled: evaluation never reads them, see the section
comment). -/
def runStmtsE (ed : EnumDefM) (env : List (Ident × RtVal)) :
    List StmtM → Except Outcome (List (Ident × RtVal))
  | [] => .ok env
  | .letIdS i rhs :: rest =>
      match evalE ed env rhs with
      | .val v => runStmtsE ed ((i, v) :: env) rest
      | o => .error o
  | .letPatS _ rhs :: rest =>
      match evalE ed env rhs with
      | .val _ => runStmtsE ed env rest
      | o => .error o
  | .exprS e :: rest =>
      match evalE ed env e with
      | .val _ => runStmtsE ed env rest
      | o => .error o
end

/-- Evaluate a whole generated method body. -/
def evalBody (ed : EnumDefM) (env : List (Ident × RtVal)) (b : BlockOrExprM) : Outcome :=
  match runStmtsE ed env b.stmts with
  | .ok env' =>
      match b.expr with
      | some e => evalE ed env' e
      | none => .val (.tupv [])
  | .error o => o

/-! ### Harness for the reachability theorems -/

/-- The marker combinator: its output for substructure `s` is the bare
`combCall s` expression, so evaluation reports exactly which invocation it
reached. -/
def csMarker (s : SubstructureFieldsM) : BlockOrExprM := ⟨[], some (.combCall s)⟩

/-- The selflike-argument expressions fed to the method-body expansion
(`extract_arg_details`, mod.rs lines 911-948, with `ty::get_explicit_self`):
each selflike argument of declared type `&Self` named `a` contributes the
place expression `*a`. -/
def selflikeArgExprs (argIdents : List Ident) : List ExprM :=
  argIdents.map fun a => .derefE (.identE a)

/-- The field arity of variant `vidx` of the enum. -/
def variantArity (ed : EnumDefM) (vidx : Nat) : Nat :=
  ((ed.variants.get? vidx).map fun v => v.data.fields.length).getD 0

/-- A well-typed runtime value holding variant `vidx`. -/
def mkEnumVal (ed : EnumDefM) (vidx : Nat) : RtVal :=
  .enumv vidx (variantArity ed vidx)

/-- The initial environment of a method invocation: each selflike argument
ident (of type `&Self`) bound to a reference to its value. -/
def mkArgEnv (ed : EnumDefM) (argIdents : List Ident) (vals : List Nat) :
    List (Ident × RtVal) :=
  argIdents.zip (vals.map fun v => RtVal.refv (mkEnumVal ed v))

/-! ## Concrete instances (used by witnesses and counterexamples) -/

def tyI32 : AstTy := .path [("i32", [])]

def exVariantA : VariantM := ⟨"A", 10, .unitKind⟩
def exVariantB : VariantM := ⟨"B", 11, .tupleKind [⟨none, 20, tyI32⟩]⟩
def exVariantC : VariantM := ⟨"C", 12, .tupleKind [⟨none, 21, tyI32⟩, ⟨none, 22, tyI32⟩]⟩

/-- The enum `{A, B(i32), C(i32, i32)}` of the specification's examples. -/
def exEnumABC : EnumDefM := ⟨[exVariantA, exVariantB, exVariantC]⟩

def exVariantBu : VariantM := ⟨"B", 11, .unitKind⟩
def exVariantCu : VariantM := ⟨"C", 12, .tupleKind [⟨none, 21, tyI32⟩]⟩

/-- The enum `{A, B, C(i32)}` of the fieldless-unification example. -/
def exEnumABCu : EnumDefM := ⟨[exVariantA, exVariantBu, exVariantCu]⟩

/-- The selflike argument names of a two-argument method such as
`PartialEq::eq`. -/
def exArgIdents : List Ident := ["self", "other"]

/-- A two-argument instance method without fieldless-variant unification. -/
def exMethod : MethodDefM := ⟨"eq", true, false⟩

/-- The same method with fieldless-variant unification enabled. -/
def exMethodUnify : MethodDefM := ⟨"eq", true, true⟩

/-- The bare parameter occurrence `T`. -/
def bareParamTy (t : Ident) : AstTy := .path [(t, [])]

/-- The field type `Vec<T>`. -/
def vecOfParamTy (t : Ident) : AstTy := .path [("Vec", [bareParamTy t])]

/-- The associated-type projection `T::Item` (a two-segment path whose first
segment is the parameter). -/
def paramProjTy (t : Ident) : AstTy := .path [(t, []), ("Item", [])]

/-- A trait definition fragment used in concrete runs. -/
def exTraitDef : TraitDefM := ⟨99, [.word "inline"], "Trait", false⟩

/-- A struct item with one field whose type is a type-level macro call, and
one declared type parameter. -/
def exMacItem : ItemM :=
  ⟨"S", [], .structK (.structKind [⟨some "f", 1, .macCall 7⟩]) ["T"]⟩

/-! ## Symbolic pairwise combiners for the fold theorems

`cs_fold` hands the folding function `Combine(span, old, new)` where `old` is
the accumulated expression and `new` the current field's expression.  A
left-folding trait writes its pairwise combiner with the earlier-declared
side first, i.e. `pair(a, b) := Combine(_, old := a, new := b)` (e.g.
`PartialEq` builds `old && new`); a right-folding trait writes the
earlier-declared side first as `pair(a, b) := Combine(_, old := b, new := a)`
(e.g. `Ord` builds `new.then(old)`: the current field is combined in front
of the accumulated later fields).  The symbolic `pair` is reified as a
two-element tuple expression. -/

/-- `pair(a, b)` read off a `Combine(span, old, new)` as `(old, new)`. -/
def pairCombinerL (single : FieldInfoM → ExprM) : CsFoldM → ExprM
  | .Single f => single f
  | .Combine _ old new => .tupE [old, new]
  | .Fieldless => .boolLit true
  | .EnumNonMatching _ _ => .boolLit false

/-- `pair(a, b)` read off a `Combine(span, old, new)` as `(new, old)`. -/
def pairCombinerR (single : FieldInfoM → ExprM) : CsFoldM → ExprM
  | .Single f => single f
  | .Combine _ old new => .tupE [new, old]
  | .Fieldless => .boolLit true
  | .EnumNonMatching _ _ => .boolLit false

/-- Length of the left spine of nested pair expressions; distinguishes
left-associated from right-associated chains. -/
def leftSpine : ExprM → Nat
  | .tupE [a, _] => 1 + leftSpine a
  | _ => 0

/-! # Theorems

## Claim 4: the structural summarizer -/

theorem partitionFieldSummary_all_named (fs : List FieldDefM)
    (h : ∀ f ∈ fs, f.ident.isSome) :
    partitionFieldSummary fs = (fs.map fun f => (f.ident.getD "", f.span), []) := by
  induction fs with
  | nil => rfl
  | cons f rest ih =>
      have hf := h f (by simp)
      have hr := ih fun g hg => h g (by simp [hg])
      cases hident : f.ident with
      | none => rw [hident] at hf; simp at hf
      | some i => simp [partitionFieldSummary, hr, hident]

theorem partitionFieldSummary_all_unnamed (fs : List FieldDefM)
    (h : ∀ f ∈ fs, f.ident = none) :
    partitionFieldSummary fs = ([], fs.map fun f => f.span) := by
  induction fs with
  | nil => rfl
  | cons f rest ih =>
      have hf := h f (by simp)
      have hr := ih fun g hg => h g (by simp [hg])
      simp [partitionFieldSummary, hr, hf]

theorem partitionFieldSummary_named_ne_nil (fs : List FieldDefM) (f : FieldDefM)
    (hmem : f ∈ fs) (h : f.ident.isSome) : (partitionFieldSummary fs).1 ≠ [] := by
  induction fs with
  | nil => cases hmem
  | cons g rest ih =>
      cases hmem with
      | head =>
          obtain ⟨i, hi⟩ := Option.isSome_iff_exists.mp h
          simp [partitionFieldSummary, hi]
      | tail _ hmem' =>
          have hr := ih hmem'
          cases hident : g.ident with
          | none => simpa [partitionFieldSummary, hident] using hr
          | some i => simp [partitionFieldSummary, hident]

theorem partitionFieldSummary_spans_ne_nil (fs : List FieldDefM) (f : FieldDefM)
    (hmem : f ∈ fs) (h : f.ident = none) : (partitionFieldSummary fs).2 ≠ [] := by
  induction fs with
  | nil => cases hmem
  | cons g rest ih =>
      cases hmem with
      | head => simp [partitionFieldSummary, h]
      | tail _ hmem' =>
          have hr := ih hmem'
          cases hident : g.ident with
          | none => simp [partitionFieldSummary, hident]
          | some i => simpa [partitionFieldSummary, hident] using hr

/-- **C4**: `summarise_struct` yields `Named` with one `(name, span)` entry
per field in declaration order when every field is named; `Unnamed(_, true)`
for a (non-empty) tuple struct's fields; `Named []` for an empty field list;
and the `malformedFieldShape` bug for a list mixing named and unnamed fields.
Its result type makes it impossible to populate named and unnamed entries at
once. -/
theorem claim4_summarise_struct :
    (∀ fs : List FieldDefM, (∀ f ∈ fs, f.ident.isSome) →
      summarise_struct (.structKind fs)
        = .ok (.Named (fs.map fun f => (f.ident.getD "", f.span))))
    ∧ (∀ fs : List FieldDefM, fs ≠ [] → (∀ f ∈ fs, f.ident = none) →
      summarise_struct (.tupleKind fs) = .ok (.Unnamed (fs.map fun f => f.span) true))
    ∧ (∀ vd : VariantDataM, vd.fields = [] → summarise_struct vd = .ok (.Named []))
    ∧ (∀ vd : VariantDataM, (∃ f ∈ vd.fields, f.ident.isSome) →
        (∃ f ∈ vd.fields, f.ident = none) →
        summarise_struct vd = .error .malformedFieldShape) := by
  refine ⟨?_, ?_, ?_, ?_⟩
  · intro fs h
    cases fs with
    | nil => rfl
    | cons f rest =>
        have hp := partitionFieldSummary_all_named (f :: rest) h
        simp [summarise_struct, VariantDataM.fields, hp]
  · intro fs hne h
    cases fs with
    | nil => exact absurd rfl hne
    | cons f rest =>
        have hp := partitionFieldSummary_all_unnamed (f :: rest) h
        simp [summarise_struct, VariantDataM.fields, hp, VariantDataM.isTuple]
  · intro vd hfs
    cases vd with
    | structKind fs =>
        cases fs with
        | nil => rfl
        | cons a b => simp [VariantDataM.fields] at hfs
    | tupleKind fs =>
        cases fs with
        | nil => rfl
        | cons a b => simp [VariantDataM.fields] at hfs
    | unitKind => rfl
  · intro vd ⟨f, hfmem, hf⟩ ⟨g, hgmem, hg⟩
    have h1 := partitionFieldSummary_named_ne_nil vd.fields f hfmem hf
    have h2 := partitionFieldSummary_spans_ne_nil vd.fields g hgmem hg
    obtain ⟨x, xs, hx⟩ := List.exists_cons_of_ne_nil h1
    obtain ⟨y, ys, hy⟩ := List.exists_cons_of_ne_nil h2
    simp [summarise_struct, hx, hy]

/-- Witness for C4 at concrete field lists: two named fields, a two-field
tuple struct, an empty tuple struct, and a mixed list. -/
theorem claim4_witness :
    summarise_struct (.structKind [⟨some "x", 1, tyI32⟩, ⟨some "y", 2, tyI32⟩])
      = .ok (.Named [("x", 1), ("y", 2)])
    ∧ summarise_struct (.tupleKind [⟨none, 1, tyI32⟩, ⟨none, 2, tyI32⟩])
      = .ok (.Unnamed [1, 2] true)
    ∧ summarise_struct (.tupleKind []) = .ok (.Named [])
    ∧ summarise_struct (.structKind [⟨some "x", 1, tyI32⟩, ⟨none, 2, tyI32⟩])
      = .error .malformedFieldShape := by
  refine ⟨?_, ?_, ?_, ?_⟩
  · exact claim4_summarise_struct.1 _ (by decide)
  · exact claim4_summarise_struct.2.1 _ (List.cons_ne_nil _ _) (by decide)
  · exact claim4_summarise_struct.2.2.1 _ rfl
  · exact claim4_summarise_struct.2.2.2 (.structKind [⟨some "x", 1, tyI32⟩, ⟨none, 2, tyI32⟩])
      ⟨⟨some "x", 1, tyI32⟩, by simp [VariantDataM.fields], by simp⟩
      ⟨⟨none, 2, tyI32⟩, by simp [VariantDataM.fields], rfl⟩

/-! ## Claim 6: union gating in `expand_ext` -/

/-- **C6**: expansion yields no impl exactly when the item is a union and the
trait does not support unions; in that case the reported diagnostic is the
"cannot be derived for unions" error at the derive header's span; a union
with a union-supporting trait is expanded exactly like a struct with the
same fields. -/
theorem claim6_union_gating :
    (∀ (td : TraitDefM) (item : ItemM),
      (expand_ext td item).1 = none ↔
        td.supports_unions = false ∧ ∃ vd ps, item.kind = .unionK vd ps)
    ∧ (∀ (td : TraitDefM) (id : Ident) (attrs : List AttrM) (vd : VariantDataM)
        (ps : List Ident), td.supports_unions = false →
        expand_ext td ⟨id, attrs, .unionK vd ps⟩
          = (none, [.unsupportedUnionDerive td.span]))
    ∧ (∀ (td : TraitDefM) (id : Ident) (attrs : List AttrM) (vd : VariantDataM)
        (ps : List Ident), td.supports_unions = true →
        expand_ext td ⟨id, attrs, .unionK vd ps⟩
          = expand_ext td ⟨id, attrs, .structK vd ps⟩) := by
  refine ⟨?_, ?_, ?_⟩
  · intro td item
    obtain ⟨id, attrs, kind⟩ := item
    cases kind with
    | structK vd ps => simp [expand_ext]
    | enumK ed ps => simp [expand_ext]
    | unionK vd ps =>
        cases hsu : td.supports_unions with
        | false => simp [expand_ext, hsu]
        | true => simp [expand_ext, hsu]
  · intro td id attrs vd ps hsu
    simp [expand_ext, hsu]
  · intro td id attrs vd ps hsu
    simp [expand_ext, hsu, keepLintAttrs]

/-- Witness for C6 at a concrete union item and trait. -/
theorem claim6_witness :
    expand_ext exTraitDef ⟨"U", [], .unionK (.structKind [⟨some "f", 1, tyI32⟩]) []⟩
      = (none, [.unsupportedUnionDerive 99]) :=
  claim6_union_gating.2.1 exTraitDef "U" [] (.structKind [⟨some "f", 1, tyI32⟩]) [] rfl

/-! ## Claim 7: zero-variant enums -/

/-- **C7**: for an enum with zero variants, every instance method body is the
single unconditionally-unreachable expression with no statements — a
constant independent of the self-like arguments (so it references none of
them) — and evaluating it hits the unreachable marker. -/
theorem claim7_zero_variant_enum :
    ∀ (md : MethodDefM) (tyI : Ident) (selflike_args : List ExprM)
      (cs : SubstructureFieldsM → BlockOrExprM),
      expand_enum_method_body md tyI ⟨[]⟩ selflike_args cs = ⟨[], some .unreachableE⟩
      ∧ ∀ (ed' : EnumDefM) (env : List (Ident × RtVal)),
          evalBody ed' env (expand_enum_method_body md tyI ⟨[]⟩ selflike_args cs)
            = .unreachableHit := by
  intro md tyI selflike_args cs
  have hbody : expand_enum_method_body md tyI ⟨[]⟩ selflike_args cs
      = ⟨[], some .unreachableE⟩ := by
    simp [expand_enum_method_body, expandEnumMatchArms, expandEnumDefaultArm]
  exact ⟨hbody, fun ed' env => by rw [hbody]; rfl⟩

/-! ## Claim 9: the self-like argument count assertion of the struct path -/

/-- **C9**: `expand_struct_method_body` fails with its opening assertion
exactly when the number of self-like arguments is neither 1 nor 2, and
succeeds otherwise.  (The enum path, `expand_enum_method_body`, is a total
function over any argument list — see `claim7_zero_variant_enum` and
`claim1...` for its behaviour at argument counts other than 1 and 2.) -/
theorem claim9_struct_selflike_assertion :
    ∀ (struct_def : VariantDataM) (tyI : Ident) (selflike_args : List ExprM)
      (use_temporaries is_packed : Bool) (cs : SubstructureFieldsM → BlockOrExprM),
      (expand_struct_method_body struct_def tyI selflike_args use_temporaries is_packed cs
          = .error .selflikeCountAssertion
        ↔ ¬(selflike_args.length = 1 ∨ selflike_args.length = 2))
      ∧ ((selflike_args.length = 1 ∨ selflike_args.length = 2) →
          ∃ b, expand_struct_method_body struct_def tyI selflike_args use_temporaries
            is_packed cs = .ok b) := by
  intro struct_def tyI selflike_args use_temporaries is_packed cs
  by_cases h : selflike_args.length = 1 ∨ selflike_args.length = 2
  · constructor
    · rw [expand_struct_method_body]
      have hc : (!(selflike_args.length == 1 || selflike_args.length == 2)) = false := by
        rcases h with h | h <;> simp [h]
      rw [hc]
      cases is_packed <;> simp [h]
    · intro _
      rw [expand_struct_method_body]
      have hc : (!(selflike_args.length == 1 || selflike_args.length == 2)) = false := by
        rcases h with h | h <;> simp [h]
      rw [hc]
      cases is_packed <;> exact ⟨_, rfl⟩
  · have hc : (!(selflike_args.length == 1 || selflike_args.length == 2)) = true := by
      simp only [not_or] at h
      simp [h.1, h.2]
    constructor
    · rw [expand_struct_method_body, hc]
      simp [h]
    · intro habs; exact absurd habs h

/-- Witness for C9: a three-argument struct method trips the assertion, a
two-argument one succeeds. -/
theorem claim9_witness :
    expand_struct_method_body (.structKind [⟨some "x", 1, tyI32⟩]) "S"
        [.identE "a", .identE "b", .identE "c"] false false csMarker
      = .error .selflikeCountAssertion
    ∧ ∃ b, expand_struct_method_body (.structKind [⟨some "x", 1, tyI32⟩]) "S"
        [.identE "a", .identE "b"] false false csMarker = .ok b :=
  ⟨(claim9_struct_selflike_assertion _ "S" _ false false csMarker).1.mpr (by decide),
   (claim9_struct_selflike_assertion _ "S" _ false false csMarker).2 (by decide)⟩

/-! ## Claim 10: the attributes of the generated impl -/

/-- **C10**: every impl produced by the synthesis carries
`#[automatically_derived]` and `#[allow(unused_qualifications)]` first, then
the trait's own attributes, for every item shape; the trailing `extra` is
the inherited lint-classification attributes of the original item. -/
theorem claim10_impl_attributes :
    (∀ (td : TraitDefM) (tyParamNames : List Ident) (field_tys : List AstTy),
      (create_derived_impl td tyParamNames field_tys).1.attrs
        = .word "automatically_derived" :: .list "allow" ["unused_qualifications"]
            :: td.attributes)
    ∧ (∀ (td : TraitDefM) (item : ItemM) (impl : ImplDeclM),
        (expand_ext td item).1 = some impl →
        ∃ extra, impl.attrs
          = .word "automatically_derived" :: .list "allow" ["unused_qualifications"]
              :: (td.attributes ++ extra)) := by
  constructor
  · intro td tyParamNames field_tys
    rfl
  · intro td item impl h
    obtain ⟨id, attrs, kind⟩ := item
    refine ⟨attrs.filter (fun a => lintAttrNames.contains a.name), ?_⟩
    cases kind with
    | structK vd ps =>
        simp only [expand_ext, Option.some.injEq] at h
        rw [← h]
        simp [keepLintAttrs, expand_struct_def, create_derived_impl]
    | enumK ed ps =>
        simp only [expand_ext, Option.some.injEq] at h
        rw [← h]
        simp [keepLintAttrs, expand_enum_def, create_derived_impl]
    | unionK vd ps =>
        cases hsu : td.supports_unions with
        | false => simp [expand_ext, hsu] at h
        | true =>
            simp only [expand_ext, hsu, if_true, Option.some.injEq] at h
            rw [← h]
            simp [keepLintAttrs, expand_struct_def, create_derived_impl]

/-- Witness for C10: the impl produced for a concrete struct item. -/
theorem claim10_witness :
    ∃ extra, ((expand_ext exTraitDef exMacItem).1.getD ⟨[], []⟩).attrs
      = .word "automatically_derived" :: .list "allow" ["unused_qualifications"]
          :: (exTraitDef.attributes ++ extra) :=
  claim10_impl_attributes.2 exTraitDef exMacItem
    ((expand_ext exTraitDef exMacItem).1.getD ⟨[], []⟩) rfl

/-! ## Claim 2: fold direction and associativity -/

/-- **C2**: over the field list `[f0, f1, f2]` of a `Struct` or `EnumMatching`
substructure, the left fold produces the strictly left-associated chain
`pair(pair(f0, f1), f2)` and the right fold the strictly right-associated
chain `pair(f0, pair(f1, f2))`, under the direction-appropriate reading of
the pairwise combiner (see `pairCombinerL`/`pairCombinerR`; the first two
conjuncts characterize both directions for an arbitrary folding function:
each is a linear chain, never balanced, with the base field first resp. last
and one `Combine` step per remaining field in the declared direction).  The
two shapes differ as expression trees, so a non-commutative combiner
observes the difference. -/
theorem claim2_cs_fold_associativity :
    ∀ (f0 f1 f2 : FieldInfoM) (vd : VariantDataM) (idx cnt : Nat) (w : VariantM)
      (sp : Span) (f : CsFoldM → ExprM) (single : FieldInfoM → ExprM),
      cs_fold true sp (.Struct vd [f0, f1, f2]) f
        = .ok (f (.Combine f2.span
            (f (.Combine f1.span (f (.Single f0)) (f (.Single f1)))) (f (.Single f2))))
      ∧ cs_fold false sp (.Struct vd [f0, f1, f2]) f
        = .ok (f (.Combine f0.span
            (f (.Combine f1.span (f (.Single f2)) (f (.Single f1)))) (f (.Single f0))))
      ∧ cs_fold true sp (.EnumMatching idx cnt w [f0, f1, f2]) f
        = cs_fold true sp (.Struct vd [f0, f1, f2]) f
      ∧ cs_fold false sp (.EnumMatching idx cnt w [f0, f1, f2]) f
        = cs_fold false sp (.Struct vd [f0, f1, f2]) f
      ∧ cs_fold true sp (.Struct vd [f0, f1, f2]) (pairCombinerL single)
        = .ok (.tupE [.tupE [single f0, single f1], single f2])
      ∧ cs_fold false sp (.Struct vd [f0, f1, f2]) (pairCombinerR single)
        = .ok (.tupE [single f0, .tupE [single f1, single f2]])
      ∧ ∀ a b c : ExprM, ExprM.tupE [.tupE [a, b], c] ≠ .tupE [a, .tupE [b, c]] := by
  intro f0 f1 f2 vd idx cnt w sp f single
  refine ⟨rfl, rfl, rfl, rfl, rfl, rfl, ?_⟩
  intro a b c h
  have h2 := congrArg leftSpine h
  simp [leftSpine] at h2

/-- Witness for C2 at concrete fields and combiner. -/
theorem claim2_witness :
    cs_fold true 0 (.Struct .unitKind
        [⟨1, none, .identE "e0", []⟩, ⟨2, none, .identE "e1", []⟩,
         ⟨3, none, .identE "e2", []⟩]) (pairCombinerL (fun fi => fi.self_expr))
      = .ok (.tupE [.tupE [.identE "e0", .identE "e1"], .identE "e2"])
    ∧ (ExprM.tupE [.tupE [.identE "e0", .identE "e1"], .identE "e2"]
        ≠ .tupE [.identE "e0", .tupE [.identE "e1", .identE "e2"]]) :=
  ⟨(claim2_cs_fold_associativity ⟨1, none, .identE "e0", []⟩ ⟨2, none, .identE "e1", []⟩
      ⟨3, none, .identE "e2", []⟩ .unitKind 0 0 ⟨"A", 0, .unitKind⟩ 0
      (pairCombinerL (fun fi => fi.self_expr)) (fun fi => fi.self_expr)).2.2.2.2.1,
   (claim2_cs_fold_associativity ⟨1, none, .identE "e0", []⟩ ⟨2, none, .identE "e1", []⟩
      ⟨3, none, .identE "e2", []⟩ .unitKind 0 0 ⟨"A", 0, .unitKind⟩ 0
      (pairCombinerL (fun fi => fi.self_expr)) (fun fi => fi.self_expr)).2.2.2.2.2.2 _ _ _⟩

/-! ## Claim 3: bound inference and the bare-parameter skip

The claim asserts that a field of type `Vec<T>` yields a where-predicate for
`T`'s occurrence nested inside `Vec`.  It does not: the occurrence recorded
by `find_type_parameters` for that field is the bare path `T` itself, and
the skip test of `create_derived_impl` (one segment, name is a declared
parameter) drops it regardless of how deeply it was nested, so no predicate
is added.  Predicates arise only from recorded occurrences that are not bare
parameter paths, such as the projection `T::Item`. -/

/-- Counterexample to **C3** as stated: with declared parameter `T` and
fields `Vec<T>` and `T`, bound inference records the nested bare occurrence
of `T`, yet the where-predicate list is empty — no predicate is added for
the occurrence nested inside `Vec`. -/
theorem claim3_counterexample :
    (find_type_parameters (vecOfParamTy "T") ["T"]).1 = [⟨[], bareParamTy "T"⟩]
    ∧ (derivedWherePredicates ["T"] [vecOfParamTy "T", bareParamTy "T"]).1 = [] := by
  constructor <;> rfl

/-- **C3 (amended)**: for a declared type parameter `t` (and `Vec` not a
parameter), the nested occurrence of `t` in a field `Vec<t>` is recorded by
`find_type_parameters` but skipped by the where-predicate loop, exactly like
a bare `t` used directly as a field type — neither adds a predicate; a
non-bare nested occurrence such as `t::Item` does add one. -/
theorem claim3_bare_param_skip (t : Ident) (names : List Ident)
    (ht : names.contains t = true) (hvec : names.contains "Vec" = false) :
    find_type_parameters (vecOfParamTy t) names = ([⟨[], bareParamTy t⟩], [])
    ∧ (derivedWherePredicates names [vecOfParamTy t, bareParamTy t]).1 = []
    ∧ (derivedWherePredicates names [paramProjTy t]).1 = [⟨[], paramProjTy t⟩] := by
  have ht' : t ∈ names := by simpa using ht
  have hvec' : "Vec" ∉ names := by simpa using hvec
  have hne : names.isEmpty = false := by
    cases names with
    | nil => simp at ht
    | cons a l => rfl
  have hfind : find_type_parameters (vecOfParamTy t) names = ([⟨[], bareParamTy t⟩], []) := by
    simp [find_type_parameters, findTypeParametersTy, findTypeParametersSegs,
      findTypeParametersArgs, vecOfParamTy, bareParamTy, ht', hvec']
  refine ⟨hfind, ?_, ?_⟩
  · simp [derivedWherePredicates, hne, fieldWherePredicates, find_type_parameters,
      findTypeParametersTy, findTypeParametersSegs, findTypeParametersArgs,
      vecOfParamTy, bareParamTy, isBareTypeParam, ht', hvec']
  · simp [derivedWherePredicates, hne, fieldWherePredicates, find_type_parameters,
      findTypeParametersTy, findTypeParametersSegs, findTypeParametersArgs,
      paramProjTy, isBareTypeParam, ht']

/-- Witness for the amended C3 at `t := "T"`, `names := ["T"]`. -/
theorem claim3_witness :
    find_type_parameters (vecOfParamTy "T") ["T"] = ([⟨[], bareParamTy "T"⟩], [])
    ∧ (derivedWherePredicates ["T"] [vecOfParamTy "T", bareParamTy "T"]).1 = []
    ∧ (derivedWherePredicates ["T"] [paramProjTy "T"]).1 = [⟨[], paramProjTy "T"⟩] :=
  claim3_bare_param_skip "T" ["T"] (by decide) (by decide)

/-! ## Claim 8: type-level macro calls during bound inference

The claim asserts that reaching a type-level macro invocation stops this
derive's expansion with no impl produced.  It does not: `visit_mac_call`
reports the error through `cx.span_err` — a non-fatal diagnostic — and the
traversal, the where-predicate loop, and the rest of the expansion all
continue; the impl is still produced (compilation fails later because an
error was reported). -/

mutual
theorem hasMacCall_errs_ty : ∀ (names stack : List Ident) (t : AstTy),
    t.hasMacCall = true → (findTypeParametersTy names stack t).2 ≠ []
  | names, stack, .path segments, h => by
      have hs := hasMacCall_errs_segs names stack segments
        (by simpa [AstTy.hasMacCall] using h)
      simpa [findTypeParametersTy] using hs
  | _, _, .macCall sp, _ => by simp [findTypeParametersTy]

theorem hasMacCall_errs_segs : ∀ (names stack : List Ident)
    (segs : List (Ident × List AstTy)),
    AstTy.hasMacCallSegs segs = true → (findTypeParametersSegs names stack segs).2 ≠ []
  | names, stack, [], h => by simp [AstTy.hasMacCallSegs] at h
  | names, stack, (s, args) :: rest, h => by
      rw [AstTy.hasMacCallSegs] at h
      rw [findTypeParametersSegs]
      intro hcontra
      rw [List.append_eq_nil] at hcontra
      rcases (by simpa using h :
          AstTy.hasMacCallArgs args = true ∨ AstTy.hasMacCallSegs rest = true) with ha | hr
      · exact hasMacCall_errs_args names stack args ha hcontra.1
      · exact hasMacCall_errs_segs names stack rest hr hcontra.2

theorem hasMacCall_errs_args : ∀ (names stack : List Ident) (args : List AstTy),
    AstTy.hasMacCallArgs args = true → (findTypeParametersArgs names stack args).2 ≠ []
  | names, stack, [], h => by simp [AstTy.hasMacCallArgs] at h
  | names, stack, t :: rest, h => by
      rw [AstTy.hasMacCallArgs] at h
      rw [findTypeParametersArgs]
      intro hcontra
      rw [List.append_eq_nil] at hcontra
      rcases (by simpa using h :
          t.hasMacCall = true ∨ AstTy.hasMacCallArgs rest = true) with ha | hr
      · exact hasMacCall_errs_ty names stack t ha hcontra.1
      · exact hasMacCall_errs_args names stack rest hr hcontra.2
end

theorem foldl_append_snd {α β γ : Type} (g : α → List β) (h : α → List γ)
    (l : List α) : ∀ acc : List β × List γ,
    (l.foldl (fun acc x => (acc.1 ++ g x, acc.2 ++ h x)) acc).2
      = acc.2 ++ l.flatMap h := by
  induction l with
  | nil => intro acc; simp
  | cons x xs ih =>
      intro acc
      rw [List.foldl_cons, ih]
      simp

/-- The diagnostics of the where-predicate loop are exactly the concatenated
traversal diagnostics of the field types. -/
theorem derivedWherePredicates_errs (names : List Ident)
    (hne : names.isEmpty = false) (ftys : List AstTy) :
    (derivedWherePredicates names ftys).2
      = ftys.flatMap fun ft => (find_type_parameters ft names).2 := by
  rw [derivedWherePredicates, hne]
  simpa using foldl_append_snd (fieldWherePredicates names)
    (fun ft => (find_type_parameters ft names).2) ftys ([], [])

/-- Counterexample to **C8** as stated: for a struct with a macro-call field
type and a declared parameter, the derive reports the macro error *and still
produces the impl* — expansion does not stop. -/
theorem claim8_counterexample :
    (expand_ext exTraitDef exMacItem).1.isSome = true
    ∧ (expand_ext exTraitDef exMacItem).2 = [.typeMacDiag 7] :=
  ⟨rfl, rfl⟩

/-- **C8 (amended)**: whenever bound inference runs (the item declares at
least one type parameter) over a field type containing a type-level macro
invocation, the "`derive` cannot be used on items with type macros" error is
reported through the diagnostic sink, and the expansion nevertheless
continues: the impl is still produced. -/
theorem claim8_mac_call_reported :
    ∀ (td : TraitDefM) (id : Ident) (attrs : List AttrM) (struct_def : VariantDataM)
      (tyParamNames : List Ident),
      tyParamNames.isEmpty = false →
      (∃ f ∈ struct_def.fields, f.ty.hasMacCall = true) →
      (expand_ext td ⟨id, attrs, .structK struct_def tyParamNames⟩).1.isSome = true
      ∧ ∃ sp, DiagM.typeMacDiag sp
          ∈ (expand_ext td ⟨id, attrs, .structK struct_def tyParamNames⟩).2 := by
  intro td id attrs struct_def tyParamNames hne ⟨f, hfmem, hmac⟩
  constructor
  · simp [expand_ext]
  · have herrs : (find_type_parameters f.ty tyParamNames).2 ≠ [] :=
      hasMacCall_errs_ty tyParamNames [] f.ty hmac
    obtain ⟨sp, sps, hsp⟩ := List.exists_cons_of_ne_nil herrs
    refine ⟨sp, ?_⟩
    have hdiags : (expand_ext td ⟨id, attrs, .structK struct_def tyParamNames⟩).2
        = ((derivedWherePredicates tyParamNames
            (struct_def.fields.map fun fd => fd.ty)).2).map DiagM.typeMacDiag := by
      simp [expand_ext, expand_struct_def, create_derived_impl]
    rw [hdiags, derivedWherePredicates_errs tyParamNames hne]
    rw [List.mem_map]
    refine ⟨sp, ?_, rfl⟩
    rw [List.mem_flatMap]
    exact ⟨f.ty, List.mem_map_of_mem (fun fd => fd.ty) hfmem, by rw [hsp]; simp⟩

/-- Witness for the amended C8 at the concrete macro-field struct. -/
theorem claim8_witness :
    (expand_ext exTraitDef exMacItem).1.isSome = true
    ∧ ∃ sp, DiagM.typeMacDiag sp ∈ (expand_ext exTraitDef exMacItem).2 :=
  claim8_mac_call_reported exTraitDef "S" [] (.structKind [⟨some "f", 1, .macCall 7⟩])
    ["T"] rfl ⟨⟨some "f", 1, .macCall 7⟩, by simp [VariantDataM.fields], rfl⟩

/-! ## Unfolding lemmas for the evaluator

The evaluator is a mutual structural recursion; these per-constructor
equations (all definitional) are what the proofs rewrite with. -/

theorem evalE_identE (ed : EnumDefM) (env : List (Ident × RtVal)) (i : Ident) :
    evalE ed env (.identE i)
      = (match lookupEnv env i with | some v => .val v | none => .stuck) := rfl

theorem evalE_derefE (ed : EnumDefM) (env : List (Ident × RtVal)) (e : ExprM) :
    evalE ed env (.derefE e)
      = (match evalE ed env e with
         | .val (.refv v) => .val v
         | .val _ => .stuck
         | o => o) := rfl

theorem evalE_addrOf (ed : EnumDefM) (env : List (Ident × RtVal)) (e : ExprM) :
    evalE ed env (.addrOf e)
      = (match evalE ed env e with | .val v => .val (.refv v) | o => o) := rfl

theorem evalE_tupE (ed : EnumDefM) (env : List (Ident × RtVal)) (es : List ExprM) :
    evalE ed env (.tupE es)
      = (match evalEs ed env es with
         | .ok vs => .val (.tupv vs)
         | .error o => o) := rfl

theorem evalE_boolLit (ed : EnumDefM) (env : List (Ident × RtVal)) (b : Bool) :
    evalE ed env (.boolLit b) = .val (.boolv b) := rfl

theorem evalE_binopEq (ed : EnumDefM) (env : List (Ident × RtVal)) (a b : ExprM) :
    evalE ed env (.binopEq a b)
      = (match evalE ed env a with
         | .val (.intv m) =>
            (match evalE ed env b with
             | .val (.intv n) => .val (.boolv (m == n))
             | .val _ => .stuck
             | o => o)
         | .val _ => .stuck
         | o => o) := rfl

theorem evalE_binopAnd (ed : EnumDefM) (env : List (Ident × RtVal)) (a b : ExprM) :
    evalE ed env (.binopAnd a b)
      = (match evalE ed env a with
         | .val (.boolv false) => .val (.boolv false)
         | .val (.boolv true) =>
            (match evalE ed env b with
             | .val (.boolv bb) => .val (.boolv bb)
             | .val _ => .stuck
             | o => o)
         | .val _ => .stuck
         | o => o) := rfl

theorem evalE_discValue (ed : EnumDefM) (env : List (Ident × RtVal)) (e : ExprM) :
    evalE ed env (.discValue e)
      = (match evalE ed env e with
         | .val (.refv (.enumv vidx _)) => .val (.intv vidx)
         | .val _ => .stuck
         | o => o) := rfl

theorem evalE_unreachableE (ed : EnumDefM) (env : List (Ident × RtVal)) :
    evalE ed env .unreachableE = .unreachableHit := rfl

theorem evalE_ifE (ed : EnumDefM) (env : List (Ident × RtVal)) (c t e : ExprM) :
    evalE ed env (.ifE c t e)
      = (match evalE ed env c with
         | .val (.boolv true) => evalE ed env t
         | .val (.boolv false) => evalE ed env e
         | .val _ => .stuck
         | o => o) := rfl

theorem evalE_matchE (ed : EnumDefM) (env : List (Ident × RtVal)) (scrut : ExprM)
    (arms : List (PatM × ExprM)) :
    evalE ed env (.matchE scrut arms)
      = (match evalE ed env scrut with
         | .val v => evalArms ed env v arms
         | o => o) := rfl

theorem evalE_combCall (ed : EnumDefM) (env : List (Ident × RtVal))
    (s : SubstructureFieldsM) : evalE ed env (.combCall s) = .reached s := rfl

theorem evalEs_nil (ed : EnumDefM) (env : List (Ident × RtVal)) :
    evalEs ed env [] = .ok [] := rfl

theorem evalEs_cons (ed : EnumDefM) (env : List (Ident × RtVal)) (e : ExprM)
    (rest : List ExprM) :
    evalEs ed env (e :: rest)
      = (match evalE ed env e with
         | .val v =>
            (match evalEs ed env rest with
             | .ok vs => .ok (v :: vs)
             | .error o => .error o)
         | o => .error o) := rfl

theorem evalArms_nil (ed : EnumDefM) (env : List (Ident × RtVal)) (v : RtVal) :
    evalArms ed env v [] = .stuck := rfl

theorem evalArms_cons (ed : EnumDefM) (env : List (Ident × RtVal)) (v : RtVal)
    (p : PatM) (body : ExprM) (rest : List (PatM × ExprM)) :
    evalArms ed env v ((p, body) :: rest)
      = if patMatches ed p v then evalE ed env body else evalArms ed env v rest := rfl

theorem runStmtsE_nil (ed : EnumDefM) (env : List (Ident × RtVal)) :
    runStmtsE ed env [] = .ok env := rfl

theorem runStmtsE_letIdS (ed : EnumDefM) (env : List (Ident × RtVal)) (i : Ident)
    (rhs : ExprM) (rest : List StmtM) :
    runStmtsE ed env (.letIdS i rhs :: rest)
      = (match evalE ed env rhs with
         | .val v => runStmtsE ed ((i, v) :: env) rest
         | o => .error o) := rfl

/-! ## Environment lemmas for the enum reachability claims -/

theorem lookupEnv_eq_none_iff (l : List (Ident × RtVal)) (i : Ident) :
    lookupEnv l i = none ↔ ∀ p ∈ l, p.1 ≠ i := by
  induction l with
  | nil => simp [lookupEnv]
  | cons x xs ih =>
      obtain ⟨k, v⟩ := x
      by_cases hk : k = i
      · subst hk
        simp [lookupEnv]
      · simp [lookupEnv, hk, ih]

theorem lookupEnv_append_left_none (l1 l2 : List (Ident × RtVal)) (i : Ident)
    (h : lookupEnv l1 i = none) : lookupEnv (l1 ++ l2) i = lookupEnv l2 i := by
  induction l1 with
  | nil => rfl
  | cons x xs ih =>
      obtain ⟨k, v⟩ := x
      by_cases hk : k = i
      · simp [lookupEnv, hk] at h
      · rw [lookupEnv] at h
        rw [if_neg hk] at h
        rw [List.cons_append, lookupEnv, if_neg hk]
        exact ih h

theorem lookupEnv_append_left_some (l1 l2 : List (Ident × RtVal)) (i : Ident)
    (w : RtVal) (h : lookupEnv l1 i = some w) :
    lookupEnv (l1 ++ l2) i = some w := by
  induction l1 with
  | nil => simp [lookupEnv] at h
  | cons x xs ih =>
      obtain ⟨k, v⟩ := x
      by_cases hk : k = i
      · rw [lookupEnv] at h
        rw [if_pos hk] at h
        rw [List.cons_append, lookupEnv, if_pos hk]
        exact h
      · rw [lookupEnv] at h
        rw [if_neg hk] at h
        rw [List.cons_append, lookupEnv, if_neg hk]
        exact ih h

theorem lookupEnv_reverse (l : List (Ident × RtVal))
    (hnd : (l.map Prod.fst).Nodup) (i : Ident) :
    lookupEnv l.reverse i = lookupEnv l i := by
  induction l with
  | nil => rfl
  | cons x xs ih =>
      obtain ⟨k, v⟩ := x
      simp only [List.map_cons, List.nodup_cons] at hnd
      have hrec := ih hnd.2
      rw [List.reverse_cons]
      by_cases hk : k = i
      · subst hk
        have hnone : lookupEnv xs k = none := by
          rw [lookupEnv_eq_none_iff]
          intro p hp he
          exact hnd.1 (he ▸ List.mem_map_of_mem Prod.fst hp)
        rw [lookupEnv_append_left_none _ _ _ (hrec.trans hnone)]
        simp [lookupEnv]
      · cases hl : lookupEnv xs i with
        | some w =>
            rw [lookupEnv_append_left_some _ _ _ _ (hrec.trans hl)]
            rw [lookupEnv, if_neg hk, hl]
        | none =>
            rw [lookupEnv_append_left_none _ _ _ (hrec.trans hl)]
            simp [lookupEnv, hk, hl]

theorem lookupEnv_zipmap_get (f : Nat → RtVal) :
    ∀ (keys : List Ident) (vals : List Nat) (k : Nat) (hk : k < keys.length)
      (hk' : k < vals.length), keys.Nodup →
      lookupEnv ((keys.zip vals).map fun p => (p.1, f p.2)) (keys.get ⟨k, hk⟩)
        = some (f (vals.get ⟨k, hk'⟩))
  | [], _, k, hk, _, _ => absurd hk (by simp)
  | _ :: _, [], k, _, hk', _ => absurd hk' (by simp)
  | a :: keys', v :: vals', 0, _, _, _ => by simp [lookupEnv]
  | a :: keys', v :: vals', k + 1, hk, hk', hnd => by
      have hklt : k < keys'.length := by simpa using hk
      have hne : a ≠ keys'.get ⟨k, hklt⟩ := by
        intro he
        exact (List.nodup_cons.mp hnd).1 (he ▸ List.get_mem keys' k hklt)
      rw [List.zip_cons_cons, List.map_cons, List.get_cons_succ, lookupEnv, if_neg hne]
      exact lookupEnv_zipmap_get f keys' vals' k hklt (by simpa using hk')
        (List.nodup_cons.mp hnd).2

/-- The keys of the discriminant environment fragment. -/
theorem map_fst_zipmap (f : Nat → RtVal) (keys : List Ident) (vals : List Nat)
    (hlen : keys.length ≤ vals.length) :
    (((keys.zip vals).map fun p => (p.1, f p.2)).map Prod.fst) = keys := by
  rw [List.map_map]
  have : (Prod.fst ∘ fun p : Ident × Nat => (p.1, f p.2)) = Prod.fst := by
    funext p; rfl
  rw [this]
  exact List.map_fst_zip keys vals hlen

/-! ## Shape of the discriminant bindings and guard -/

theorem discCheck_aux (vis : List Ident) :
    ∀ (l : List (Ident × ExprM)) (k : Nat) (st : List StmtM) (t : ExprM), 2 ≤ k →
      (List.enumFrom k l).foldl (discCheckStep vis) (st, t)
        = (st ++ l.map fun p => StmtM.letIdS p.1 (.discValue (.addrOf p.2)),
           l.foldl (fun tt p =>
             ExprM.binopAnd tt (.binopEq (.identE (vis.headD "")) (.identE p.1))) t)
  | [], k, st, t, hk => by simp
  | (vi, a) :: l', k, st, t, hk => by
      have hstep : discCheckStep vis (st, t) (k, vi, a)
          = (st ++ [StmtM.letIdS vi (.discValue (.addrOf a))],
             .binopAnd t (.binopEq (.identE (vis.headD "")) (.identE vi))) := by
        rw [discCheckStep]
        have h1 : k > 0 := by omega
        have h2 : (k == 1) = false := by
          have : k ≠ 1 := by omega
          simpa using this
        simp [h1, h2]
      rw [show List.enumFrom k ((vi, a) :: l') = (k, vi, a) :: List.enumFrom (k + 1) l'
          from rfl]
      rw [List.foldl_cons, hstep,
        discCheck_aux vis l' (k + 1) _ _ (by omega), List.foldl_cons]
      simp

/-- With at least two selflike arguments, the discriminant loop produces one
`let` per (ident, argument) pair and the left-nested conjunction comparing
every later discriminant to the first. -/
theorem buildDiscriminantCheck_eq (v0 v1 : Ident) (rest : List Ident)
    (a0 a1 : ExprM) (arest : List ExprM) :
    buildDiscriminantCheck (v0 :: v1 :: rest) (a0 :: a1 :: arest)
      = (((v0 :: v1 :: rest).zip (a0 :: a1 :: arest)).map fun p =>
            StmtM.letIdS p.1 (.discValue (.addrOf p.2)),
         (rest.zip arest).foldl (fun tt p =>
            ExprM.binopAnd tt (.binopEq (.identE v0) (.identE p.1)))
           (.binopEq (.identE v0) (.identE v1))) := by
  have hs0 : discCheckStep (v0 :: v1 :: rest) ([], .boolLit true) (0, v0, a0)
      = ([StmtM.letIdS v0 (.discValue (.addrOf a0))], .boolLit true) := by
    rw [discCheckStep]; simp
  have hs1 : discCheckStep (v0 :: v1 :: rest)
        ([StmtM.letIdS v0 (.discValue (.addrOf a0))], .boolLit true) (1, v1, a1)
      = ([StmtM.letIdS v0 (.discValue (.addrOf a0)),
          StmtM.letIdS v1 (.discValue (.addrOf a1))],
         .binopEq (.identE v0) (.identE v1)) := by
    rw [discCheckStep]; simp
  rw [buildDiscriminantCheck]
  rw [show ((v0 :: v1 :: rest).zip (a0 :: a1 :: arest)).enum
      = (0, v0, a0) :: (1, v1, a1) :: List.enumFrom 2 (rest.zip arest) from rfl]
  rw [List.foldl_cons, List.foldl_cons, hs0, hs1,
    discCheck_aux (v0 :: v1 :: rest) (rest.zip arest) 2 _ _ (by omega)]
  simp

/-! ## Running the discriminant bindings -/

theorem runStmts_disc (ed : EnumDefM) :
    ∀ (vis ids : List Ident) (vals : List Nat) (env : List (Ident × RtVal)),
      vis.length = ids.length → ids.length = vals.length →
      (∀ a ∈ ids, a ∉ vis) →
      (∀ p ∈ ids.zip vals, lookupEnv env p.1 = some (.refv (mkEnumVal ed p.2))) →
      runStmtsE ed env
          ((vis.zip (selflikeArgExprs ids)).map fun p =>
            StmtM.letIdS p.1 (.discValue (.addrOf p.2)))
        = .ok ((((vis.zip vals).map fun p => (p.1, RtVal.intv p.2)).reverse) ++ env)
  | [], ids, vals, env, h1, h2, hdisj, henv => by simp [runStmtsE]
  | vi :: vis', [], vals, env, h1, h2, hdisj, henv => by simp at h1
  | vi :: vis', a :: ids', [], env, h1, h2, hdisj, henv => by simp at h2
  | vi :: vis', a :: ids', v :: vals', env, h1, h2, hdisj, henv => by
      have hlook : lookupEnv env a = some (.refv (mkEnumVal ed v)) :=
        henv (a, v) (by simp)
      have hev1 : evalE ed env (.identE a) = .val (.refv (mkEnumVal ed v)) := by
        rw [evalE_identE, hlook]
      have hev2 : evalE ed env (.derefE (.identE a)) = .val (mkEnumVal ed v) := by
        rw [evalE_derefE, hev1]
      have hev3 : evalE ed env (.addrOf (.derefE (.identE a)))
          = .val (.refv (mkEnumVal ed v)) := by
        rw [evalE_addrOf, hev2]
      have heval : evalE ed env (.discValue (.addrOf (.derefE (.identE a))))
          = .val (.intv v) := by
        rw [evalE_discValue, hev3]
        simp [mkEnumVal]
      rw [selflikeArgExprs, List.map_cons, List.zip_cons_cons, List.map_cons]
      have hrec := runStmts_disc ed vis' ids' vals' ((vi, .intv v) :: env)
        (by simpa using h1) (by simpa using h2)
        (fun b hb => fun hbv => hdisj b (by simp [hb]) (by simp [hbv]))
        (fun p hp => by
          have hne : p.1 ≠ vi := by
            have hpm : p.1 ∈ ids' := List.of_mem_zip hp |>.1
            intro he
            exact hdisj p.1 (by simp [hpm]) (by simp [he])
          rw [lookupEnv, if_neg (fun he => hne he.symm)]
          exact henv p (by simp [hp]))
      rw [show selflikeArgExprs ids' = ids'.map fun i => .derefE (.identE i) from rfl]
        at hrec
      have hstep : runStmtsE ed env
          (StmtM.letIdS (vi, ExprM.derefE (.identE a)).1
              (.discValue (.addrOf (vi, ExprM.derefE (.identE a)).2)) ::
            (vis'.zip (ids'.map fun i => ExprM.derefE (.identE i))).map
              (fun p => StmtM.letIdS p.1 (.discValue (.addrOf p.2))))
          = runStmtsE ed ((vi, RtVal.intv v) :: env)
              ((vis'.zip (ids'.map fun i => ExprM.derefE (.identE i))).map
                (fun p => StmtM.letIdS p.1 (.discValue (.addrOf p.2)))) := by
        rw [runStmtsE_letIdS]
        show (match evalE ed env (.discValue (.addrOf (.derefE (.identE a)))) with
          | .val w => runStmtsE ed ((vi, w) :: env) _
          | o => .error o) = _
        rw [heval]
      rw [hstep, hrec]
      simp

/-! ## Guard evaluation -/

theorem evalGuardFold (ed : EnumDefM) (env : List (Ident × RtVal)) (v0e : Ident)
    (m0 : Nat) (hv0 : lookupEnv env v0e = some (.intv m0)) :
    ∀ (l : List (Ident × Nat)) (accE : ExprM) (accB : Bool),
      evalE ed env accE = .val (.boolv accB) →
      (∀ p ∈ l, lookupEnv env p.1 = some (.intv p.2)) →
      evalE ed env (l.foldl (fun t p =>
          ExprM.binopAnd t (.binopEq (.identE v0e) (.identE p.1))) accE)
        = .val (.boolv (l.foldl (fun b p => b && (m0 == p.2)) accB))
  | [], accE, accB, hacc, henv => by simpa using hacc
  | (vi, m) :: l', accE, accB, hacc, henv => by
      have hstep : evalE ed env (.binopAnd accE (.binopEq (.identE v0e) (.identE vi)))
          = .val (.boolv (accB && (m0 == m))) := by
        rw [evalE_binopAnd, hacc]
        cases accB with
        | false => rfl
        | true =>
            rw [evalE_binopEq, evalE_identE, hv0, evalE_identE, henv (vi, m) (by simp)]
            simp
      rw [List.foldl_cons, List.foldl_cons]
      exact evalGuardFold ed env v0e m0 hv0 l' _ _ hstep
        (fun p hp => henv p (by simp [hp]))

theorem foldl_and_eq {α : Type} (q : α → Bool) :
    ∀ (l : List α) (b : Bool), l.foldl (fun acc x => acc && q x) b = (b && l.all q)
  | [], b => by simp
  | x :: l', b => by
      rw [List.foldl_cons, foldl_and_eq q l' (b && q x)]
      simp [Bool.and_assoc]

/-! ## Scrutinee evaluation -/

theorem evalArgsTup (ed : EnumDefM) (env : List (Ident × RtVal)) :
    ∀ (ids : List Ident) (vals : List Nat),
      ids.length = vals.length →
      (∀ p ∈ ids.zip vals, lookupEnv env p.1 = some (.refv (mkEnumVal ed p.2))) →
      evalEs ed env ((selflikeArgExprs ids).map ExprM.addrOf)
        = .ok (vals.map fun v => .refv (mkEnumVal ed v))
  | [], [], _, _ => by simp [selflikeArgExprs, evalEs_nil]
  | [], v :: vals', h, _ => by simp at h
  | a :: ids', [], h, _ => by simp at h
  | a :: ids', v :: vals', h, henv => by
      have hlook := henv (a, v) (by simp)
      have hev1 : evalE ed env (.identE a) = .val (.refv (mkEnumVal ed v)) := by
        rw [evalE_identE, hlook]
      have hev2 : evalE ed env (.derefE (.identE a)) = .val (mkEnumVal ed v) := by
        rw [evalE_derefE, hev1]
      have hev3 : evalE ed env (.addrOf (.derefE (.identE a)))
          = .val (.refv (mkEnumVal ed v)) := by
        rw [evalE_addrOf, hev2]
      have hrec := evalArgsTup ed env ids' vals' (by simpa using h)
        (fun p hp => henv p (by simp [hp]))
      rw [selflikeArgExprs, List.map_cons, List.map_cons, evalEs_cons, hev3]
      rw [show (ids'.map fun i => ExprM.derefE (.identE i)) = selflikeArgExprs ids'
        from rfl]
      rw [hrec, List.map_cons]

/-! ## Pattern matching of the generated arms -/

theorem patMatches_refPat_refv (ed : EnumDefM) (p : PatM) (v : RtVal) :
    patMatches ed (.refPat p) (.refv v) = patMatches ed p v := rfl

theorem patMatches_tupPat_tupv (ed : EnumDefM) (ps : List PatM) (vs : List RtVal) :
    patMatches ed (.tupPat ps) (.tupv vs) = patMatchesZip ed ps vs := rfl

theorem patMatchesZip_cons (ed : EnumDefM) (p : PatM) (ps : List PatM) (v : RtVal)
    (vs : List RtVal) :
    patMatchesZip ed (p :: ps) (v :: vs)
      = (patMatches ed p v && patMatchesZip ed ps vs) := rfl

theorem patMatches_wild (ed : EnumDefM) (v : RtVal) :
    patMatches ed .wildPat v = true := rfl

/-- How a per-prefix generated constructor pattern matches an enum value:
final path segment against the value's variant identifier, and field-count
arity. -/
theorem patMatches_piece (ed : EnumDefM) (ti : Ident) (w : VariantM) (pre : String)
    (v0 nf : Nat) :
    patMatches ed (.refPat (create_struct_pattern_one [ti, w.ident] w.data pre false))
        (.refv (.enumv v0 nf))
      = ((some w.ident == variantIdentAt ed v0) && (w.data.fields.length == nf)) := by
  rw [patMatches_refPat_refv]
  cases hw : w.data with
  | structKind fs =>
      show patMatches ed (.structPat [ti, w.ident] _) (.enumv v0 nf) = _
      show ((([ti, w.ident] : List Ident).getLast? == variantIdentAt ed v0)
          && (List.length _ == nf)) = _
      simp [hw, VariantDataM.fields]
  | tupleKind fs =>
      show patMatches ed (.tupleStructPat [ti, w.ident] _) (.enumv v0 nf) = _
      show ((([ti, w.ident] : List Ident).getLast? == variantIdentAt ed v0)
          && (List.length _ == nf)) = _
      simp [hw, VariantDataM.fields]
  | unitKind =>
      show patMatches ed (.pathPat [ti, w.ident]) (.enumv v0 nf) = _
      show ((([ti, w.ident] : List Ident).getLast? == variantIdentAt ed v0)
          && (nf == 0)) = _
      simp [hw, VariantDataM.fields, Bool.beq_comm]

theorem patMatchesZip_forall (ed : EnumDefM) (V : RtVal) :
    ∀ (ps : List PatM) (vs : List RtVal),
      (∀ x ∈ vs, x = V) → ps.length = vs.length →
      (∀ p ∈ ps, patMatches ed p V = true) →
      patMatchesZip ed ps vs = true
  | [], [], _, _, _ => rfl
  | [], v :: vs', _, h, _ => by simp at h
  | p :: ps', [], _, h, _ => by simp at h
  | p :: ps', v :: vs', hvs, h, hps => by
      rw [hvs v (by simp), patMatchesZip_cons, hps p (by simp),
        patMatchesZip_forall ed V ps' vs' (fun x hx => hvs x (by simp [hx]))
          (by simpa using h) (fun q hq => hps q (by simp [hq]))]
      rfl

theorem nodup_get?_inj {α : Type} (l : List α) (hnd : l.Nodup) (i j : Nat) (a : α)
    (hi : l.get? i = some a) (hj : l.get? j = some a) : i = j := by
  have hi' : i < l.length := by
    by_contra hcon
    rw [List.get?_eq_none.mpr (by omega)] at hi
    cases hi
  have hj' : j < l.length := by
    by_contra hcon
    rw [List.get?_eq_none.mpr (by omega)] at hj
    cases hj
  rw [List.get?_eq_get hi'] at hi
  rw [List.get?_eq_get hj'] at hj
  have hget : l.get ⟨i, hi'⟩ = l.get ⟨j, hj'⟩ := by
    rw [Option.some.inj hi, Option.some.inj hj]
  have := (List.Nodup.get_inj_iff hnd).mp hget
  exact congrArg Fin.val this

theorem nodup_variant_ident_inj (variants : List VariantM)
    (hnd : (variants.map fun v => v.ident).Nodup) (i j : Nat) (wi wj : VariantM)
    (hi : variants.get? i = some wi) (hj : variants.get? j = some wj)
    (he : wi.ident = wj.ident) : i = j := by
  apply nodup_get?_inj (variants.map fun v => v.ident) hnd i j wi.ident
  · rw [List.get?_map, hi]; rfl
  · rw [List.get?_map, hj, he]; rfl

/-- Walking the per-variant arms with a homogeneous tuple of values holding
variant `v0`: an arm for `v0` (if present in the index-tagged list) is the
one evaluation reaches, and its combinator invocation is
`EnumMatching(v0, count, variant v0, fields)`; otherwise evaluation falls
through to the trailing arms. -/
theorem evalArms_indexed (ed : EnumDefM) (ti : Ident) (p1 p2 : String)
    (prest : List String) (env : List (Ident × RtVal)) (vs : List RtVal) (v0 : Nat)
    (w0 : VariantM) (hv0 : ed.variants.get? v0 = some w0)
    (hnd : (ed.variants.map fun v => v.ident).Nodup)
    (hvs : ∀ x ∈ vs, x = RtVal.refv (mkEnumVal ed v0))
    (hlen : vs.length = (p1 :: p2 :: prest).length) :
    ∀ (l : List (Nat × VariantM)) (tailArms : List (PatM × ExprM)),
      (∀ q ∈ l, ed.variants.get? q.1 = some q.2) →
      evalArms ed env (.tupv vs)
          ((l.map (enumVariantArm ti ed (p1 :: p2 :: prest) csMarker)) ++ tailArms)
        = if l.any (fun q => q.1 == v0) then
            .reached (.EnumMatching v0 ed.variants.length w0
              (create_struct_pattern_fields w0.data (p1 :: p2 :: prest) false))
          else evalArms ed env (.tupv vs) tailArms
  | [], tailArms, _ => by simp
  | (j, w) :: l', tailArms, hql => by
      have hqw : ed.variants.get? j = some w := hql (j, w) (by simp)
      have harm : enumVariantArm ti ed (p1 :: p2 :: prest) csMarker (j, w)
          = (.tupPat (((p1 :: p2 :: prest).map fun q =>
                create_struct_pattern_one [ti, w.ident] w.data q false).map PatM.refPat),
             .combCall (.EnumMatching j ed.variants.length w
               (create_struct_pattern_fields w.data (p1 :: p2 :: prest) false))) := rfl
      have hrec := evalArms_indexed ed ti p1 p2 prest env vs v0 w0 hv0 hnd hvs hlen l'
        tailArms (fun q hq => hql q (by simp [hq]))
      rw [List.map_cons, List.cons_append, harm, evalArms_cons]
      by_cases hj : j = v0
      · subst hj
        have hww : w = w0 := by
          rw [hqw] at hv0
          exact Option.some.inj hv0
        subst hww
        have hmatch : patMatches ed
            (.tupPat (((p1 :: p2 :: prest).map fun q =>
              create_struct_pattern_one [ti, w.ident] w.data q false).map PatM.refPat))
            (.tupv vs) = true := by
          rw [patMatches_tupPat_tupv]
          apply patMatchesZip_forall ed (RtVal.refv (mkEnumVal ed j)) _ _ hvs
          · simpa using hlen.symm
          · intro p hp
            rw [List.map_map] at hp
            obtain ⟨q, hq, rfl⟩ := List.mem_map.mp hp
            show patMatches ed
              (.refPat (create_struct_pattern_one [ti, w.ident] w.data q false))
              (.refv (.enumv j (variantArity ed j))) = true
            rw [patMatches_piece]
            have hqw' : ed.variants[j]? = some w := by
              rw [← List.get?_eq_getElem?]
              exact hqw
            simp [variantIdentAt, variantArity, hqw']
        rw [hmatch]
        simp [evalE_combCall]
      · have hne : w.ident ≠ w0.ident := fun he =>
          hj (nodup_variant_ident_inj ed.variants hnd j v0 w w0 hqw hv0 he)

        cases vs with
        | nil => simp at hlen
        | cons x vs' =>
            have hx := hvs x (by simp)
            have hmatch : patMatches ed
                (.tupPat (((p1 :: p2 :: prest).map fun q =>
                  create_struct_pattern_one [ti, w.ident] w.data q false).map PatM.refPat))
                (.tupv (x :: vs')) = false := by
              rw [patMatches_tupPat_tupv]
              rw [show ((p1 :: p2 :: prest).map fun q =>
                    create_struct_pattern_one [ti, w.ident] w.data q false).map PatM.refPat
                  = .refPat (create_struct_pattern_one [ti, w.ident] w.data p1 false)
                    :: ((p2 :: prest).map fun q =>
                      create_struct_pattern_one [ti, w.ident] w.data q false).map PatM.refPat
                from rfl]
              rw [patMatchesZip_cons, hx]
              rw [show mkEnumVal ed v0 = RtVal.enumv v0 (variantArity ed v0) from rfl]
              rw [patMatches_piece]
              have hident : ((some w.ident == variantIdentAt ed v0)) = false := by
                rw [variantIdentAt, hv0]
                simp [hne]
              rw [hident]
              rfl
            rw [hmatch]
            rw [if_neg (by simp)]
            rw [hrec]
            have hany : (((j, w) :: l').any fun q => q.1 == v0)
                = (l'.any fun q => q.1 == v0) := by
              simp [List.any_cons, hj]
            rw [hany]

/-! ## Shape of the multi-argument enum body -/

/-- With more than one variant and more than one selflike argument, the body
is the discriminant bindings followed by
`if <guard> then <match> else <collapsed>`. -/
theorem expand_enum_method_body_multi (md : MethodDefM) (ti : Ident) (ed : EnumDefM)
    (args : List ExprM) (cs : SubstructureFieldsM → BlockOrExprM)
    (h1 : 1 < ed.variants.length) (h2 : 1 < args.length) :
    expand_enum_method_body md ti ed args cs
      = ⟨(buildDiscriminantCheck (enumViIdents args) args).1,
         some (.ifE (buildDiscriminantCheck (enumViIdents args) args).2
           (.matchE (.tupE (args.map ExprM.addrOf))
             (expandEnumMatchArms md ti ed (enumPrefixes args) cs
               ++ (match expandEnumDefaultArm md ed args cs with
                   | some arm => [(PatM.wildPat, arm)]
                   | none => [])))
           ((cs (.EnumNonMatchingCollapsed (enumViIdents args))).into_expr))⟩ := by
  rw [expand_enum_method_body]
  cases hdef : expandEnumDefaultArm md ed args cs with
  | some arm => simp [h1, h2, hdef]
  | none => simp [h1, h2, hdef]

/-- Without fieldless-variant unification, the default arm in the
multi-argument multi-variant case is the defensive unreachable catch-all. -/
theorem expandEnumDefaultArm_no_unify (md : MethodDefM) (ed : EnumDefM)
    (args : List ExprM) (cs : SubstructureFieldsM → BlockOrExprM)
    (hu : md.unify_fieldless_variants = false)
    (h1 : 1 < ed.variants.length) (h2 : 1 < args.length) :
    expandEnumDefaultArm md ed args cs = some .unreachableE := by
  rw [expandEnumDefaultArm]
  cases hf : ed.variants.find? (fun v => v.data.fields.isEmpty) with
  | some v => simp [hu, h1, h2]
  | none => simp [h1, h2]

/-- With unification and a fieldless variant present, the default arm is the
shared representative arm. -/
theorem expandEnumDefaultArm_unify (md : MethodDefM) (ed : EnumDefM)
    (args : List ExprM) (rep : VariantM)
    (hu : md.unify_fieldless_variants = true)
    (hf : ed.variants.find? (fun v => v.data.fields.isEmpty) = some rep) :
    expandEnumDefaultArm md ed args csMarker
      = some (.combCall (.EnumMatching 0 ed.variants.length rep [])) := by
  rw [expandEnumDefaultArm, hf]
  simp [hu]
  rfl

theorem enumPrefixes_length_cons (x : ExprM) (rest : List ExprM) :
    (enumPrefixes (x :: rest)).length = rest.length + 1 := by
  simp [enumPrefixes]

theorem enumViIdents_length_cons (x : ExprM) (rest : List ExprM) :
    (enumViIdents (x :: rest)).length = rest.length + 1 := by
  simp [enumViIdents, enumPrefixes_length_cons]

theorem mkArgEnv_eq (ed : EnumDefM) : ∀ (ids : List Ident) (vals : List Nat),
    mkArgEnv ed ids vals
      = (ids.zip vals).map fun p => (p.1, RtVal.refv (mkEnumVal ed p.2))
  | [], vals => by cases vals <;> rfl
  | a :: ids', [] => rfl
  | a :: ids', v :: vals' => by
      show (a, RtVal.refv (mkEnumVal ed v)) :: mkArgEnv ed ids' vals' = _
      rw [mkArgEnv_eq ed ids' vals']
      rfl

theorem mkArgEnv_lookup (ed : EnumDefM) (ids : List Ident) (vals : List Nat)
    (hnd : ids.Nodup) :
    ∀ p ∈ ids.zip vals, lookupEnv (mkArgEnv ed ids vals) p.1
      = some (.refv (mkEnumVal ed p.2)) := by
  intro p hp
  obtain ⟨k, hk⟩ := List.mem_iff_get.mp hp
  have hk1 : (k : Nat) < ids.length := by
    have := k.isLt
    simp [List.length_zip] at this
    omega
  have hk2 : (k : Nat) < vals.length := by
    have := k.isLt
    simp [List.length_zip] at this
    omega
  rw [List.get_zip] at hk
  rw [mkArgEnv_eq, ← hk]
  exact lookupEnv_zipmap_get (fun v => .refv (mkEnumVal ed v)) ids vals k hk1 hk2 hnd

/-! ## The master evaluation lemma for multi-argument enum bodies -/

theorem evalBody_mk (ed : EnumDefM) (env : List (Ident × RtVal)) (stmts : List StmtM)
    (oe : Option ExprM) :
    evalBody ed env ⟨stmts, oe⟩
      = (match runStmtsE ed env stmts with
         | .ok env' =>
            (match oe with
             | some e => evalE ed env' e
             | none => .val (.tupv []))
         | .error o => o) := rfl

theorem foldl_fst_congr {β γ : Type} (g : ExprM → Ident → ExprM) :
    ∀ (l1 : List (Ident × β)) (l2 : List (Ident × γ)) (init : ExprM),
      l1.map Prod.fst = l2.map Prod.fst →
      l1.foldl (fun t p => g t p.1) init = l2.foldl (fun t p => g t p.1) init
  | [], [], _, _ => rfl
  | [], p :: _, _, h => by simp at h
  | p :: _, [], _, h => by simp at h
  | p :: l1', q :: l2', init, h => by
      simp only [List.map_cons, List.cons.injEq] at h
      rw [List.foldl_cons, List.foldl_cons, h.1]
      exact foldl_fst_congr g l1' l2' _ h.2

theorem foldl_snd_to_all (m0 : Nat) :
    ∀ (l : List (Ident × Nat)) (init : Bool),
      l.foldl (fun b p => b && (m0 == p.2)) init
        = (init && (l.map Prod.snd).all fun m => m0 == m)
  | [], init => by simp
  | p :: l', init => by
      rw [List.foldl_cons, foldl_snd_to_all m0 l' (init && (m0 == p.2))]
      simp [Bool.and_assoc]

/-- Evaluating a generated multi-argument enum method body: the discriminant
bindings run first; if all discriminants equal the first the per-variant
match is evaluated (in the environment extended with the bindings), else the
collapsed-combinator branch is reached. -/
theorem evalBody_enum_multi (ed : EnumDefM) (md : MethodDefM) (ti : Ident)
    (ids : List Ident) (vals : List Nat)
    (hv : 1 < ed.variants.length) (hn : 2 ≤ ids.length)
    (hlen : ids.length = vals.length)
    (hndi : ids.Nodup)
    (hndvi : (enumViIdents (selflikeArgExprs ids)).Nodup)
    (hdisj : ∀ a ∈ ids, a ∉ enumViIdents (selflikeArgExprs ids)) :
    evalBody ed (mkArgEnv ed ids vals)
        (expand_enum_method_body md ti ed (selflikeArgExprs ids) csMarker)
      = if (vals.drop 1).all (fun m => vals.headD 0 == m) then
          evalArms ed
            ((((enumViIdents (selflikeArgExprs ids)).zip vals).map
                (fun p => (p.1, RtVal.intv p.2))).reverse ++ mkArgEnv ed ids vals)
            (.tupv (vals.map fun v => .refv (mkEnumVal ed v)))
            (expandEnumMatchArms md ti ed (enumPrefixes (selflikeArgExprs ids)) csMarker
              ++ (match expandEnumDefaultArm md ed (selflikeArgExprs ids) csMarker with
                  | some arm => [(PatM.wildPat, arm)]
                  | none => []))
        else .reached (.EnumNonMatchingCollapsed (enumViIdents (selflikeArgExprs ids))) := by
  obtain ⟨i0, i1, irest, rfl⟩ : ∃ i0 i1 irest, ids = i0 :: i1 :: irest := by
    match ids, hn with
    | i0 :: i1 :: irest, _ => exact ⟨i0, i1, irest, rfl⟩
  obtain ⟨m0, m1, mrest, rfl⟩ : ∃ m0 m1 mrest, vals = m0 :: m1 :: mrest := by
    match vals, hlen with
    | m0 :: m1 :: mrest, _ => exact ⟨m0, m1, mrest, rfl⟩
  have hmlen : mrest.length = irest.length := by simpa using hlen.symm
  have hargs : selflikeArgExprs (i0 :: i1 :: irest)
      = .derefE (.identE i0) :: .derefE (.identE i1) :: selflikeArgExprs irest := rfl
  have hargslen : (selflikeArgExprs irest).length = irest.length := by
    simp [selflikeArgExprs]
  have h2args : 1 < (selflikeArgExprs (i0 :: i1 :: irest)).length := by
    rw [hargs]
    simp
  obtain ⟨w0, w1, wrest, hvis⟩ : ∃ w0 w1 wrest,
      enumViIdents (selflikeArgExprs (i0 :: i1 :: irest)) = w0 :: w1 :: wrest :=
    ⟨_, _, _, rfl⟩
  have hvl : (enumViIdents (selflikeArgExprs (i0 :: i1 :: irest))).length
      = irest.length + 2 := by
    rw [hargs, enumViIdents_length_cons]
    simp [selflikeArgExprs]
  have hwlen : wrest.length = irest.length := by
    rw [hvis] at hvl
    simpa using hvl
  rw [expand_enum_method_body_multi md ti ed _ csMarker hv h2args]
  rw [hvis, hargs, buildDiscriminantCheck_eq]
  -- the post-binding environment
  have hndvi' : (w0 :: w1 :: wrest).Nodup := hvis ▸ hndvi
  have hdisj' : ∀ a ∈ (i0 :: i1 :: irest), a ∉ (w0 :: w1 :: wrest) := by
    intro a ha
    rw [← hvis]
    exact hdisj a ha
  have hrun := runStmts_disc ed (w0 :: w1 :: wrest) (i0 :: i1 :: irest)
    (m0 :: m1 :: mrest) (mkArgEnv ed (i0 :: i1 :: irest) (m0 :: m1 :: mrest))
    (by rw [← hvis, hvl]; simp) (by simpa using hlen)
    hdisj' (mkArgEnv_lookup ed _ _ hndi)
  rw [hargs] at hrun
  have hmain : evalBody ed (mkArgEnv ed (i0 :: i1 :: irest) (m0 :: m1 :: mrest))
      (⟨((w0 :: w1 :: wrest).zip
            (ExprM.derefE (.identE i0) :: ExprM.derefE (.identE i1) ::
              selflikeArgExprs irest)).map
          (fun p => StmtM.letIdS p.1 (.discValue (.addrOf p.2))),
        some (.ifE
          ((wrest.zip (selflikeArgExprs irest)).foldl
            (fun tt p => ExprM.binopAnd tt (.binopEq (.identE w0) (.identE p.1)))
            (.binopEq (.identE w0) (.identE w1)))
          (.matchE (.tupE ((ExprM.derefE (.identE i0) :: ExprM.derefE (.identE i1) ::
              selflikeArgExprs irest).map ExprM.addrOf))
            (expandEnumMatchArms md ti ed
                (enumPrefixes (ExprM.derefE (.identE i0) :: ExprM.derefE (.identE i1) ::
                  selflikeArgExprs irest)) csMarker
              ++ (match expandEnumDefaultArm md ed
                    (ExprM.derefE (.identE i0) :: ExprM.derefE (.identE i1) ::
                      selflikeArgExprs irest) csMarker with
                  | some arm => [(PatM.wildPat, arm)]
                  | none => [])))
          ((csMarker (.EnumNonMatchingCollapsed (w0 :: w1 :: wrest))).into_expr))⟩)
      = evalE ed
          ((((w0 :: w1 :: wrest).zip (m0 :: m1 :: mrest)).map
              (fun p => (p.1, RtVal.intv p.2))).reverse
            ++ mkArgEnv ed (i0 :: i1 :: irest) (m0 :: m1 :: mrest))
          (.ifE
            ((wrest.zip (selflikeArgExprs irest)).foldl
              (fun tt p => ExprM.binopAnd tt (.binopEq (.identE w0) (.identE p.1)))
              (.binopEq (.identE w0) (.identE w1)))
            (.matchE (.tupE ((ExprM.derefE (.identE i0) :: ExprM.derefE (.identE i1) ::
                selflikeArgExprs irest).map ExprM.addrOf))
              (expandEnumMatchArms md ti ed
                  (enumPrefixes (ExprM.derefE (.identE i0) :: ExprM.derefE (.identE i1) ::
                    selflikeArgExprs irest)) csMarker
                ++ (match expandEnumDefaultArm md ed
                      (ExprM.derefE (.identE i0) :: ExprM.derefE (.identE i1) ::
                        selflikeArgExprs irest) csMarker with
                    | some arm => [(PatM.wildPat, arm)]
                    | none => [])))
            ((csMarker (.EnumNonMatchingCollapsed (w0 :: w1 :: wrest))).into_expr)) := by
    rw [evalBody_mk, hrun]
  rw [hmain]
  -- lookups of the discriminant bindings in the final environment
  have hkeys : ((((w0 :: w1 :: wrest).zip (m0 :: m1 :: mrest)).map
      (fun p => (p.1, RtVal.intv p.2))).map Prod.fst) = w0 :: w1 :: wrest :=
    map_fst_zipmap RtVal.intv _ _ (by simp; omega)
  have hdisc : ∀ (k : Nat) (hk : k < (w0 :: w1 :: wrest).length)
      (hk' : k < (m0 :: m1 :: mrest).length),
      lookupEnv
          ((((w0 :: w1 :: wrest).zip (m0 :: m1 :: mrest)).map
              (fun p => (p.1, RtVal.intv p.2))).reverse
            ++ mkArgEnv ed (i0 :: i1 :: irest) (m0 :: m1 :: mrest))
          ((w0 :: w1 :: wrest).get ⟨k, hk⟩)
        = some (.intv ((m0 :: m1 :: mrest).get ⟨k, hk'⟩)) := by
    intro k hk hk'
    have h1 := lookupEnv_zipmap_get RtVal.intv (w0 :: w1 :: wrest) (m0 :: m1 :: mrest)
      k hk hk' hndvi'
    have h2 : lookupEnv
        ((((w0 :: w1 :: wrest).zip (m0 :: m1 :: mrest)).map
            (fun p => (p.1, RtVal.intv p.2))).reverse)
        ((w0 :: w1 :: wrest).get ⟨k, hk⟩)
        = some (.intv ((m0 :: m1 :: mrest).get ⟨k, hk'⟩)) := by
      rw [lookupEnv_reverse _ (by rw [hkeys]; exact hndvi')]
      exact h1
    exact lookupEnv_append_left_some _ _ _ _ h2
  have hg0 : lookupEnv
      ((((w0 :: w1 :: wrest).zip (m0 :: m1 :: mrest)).map
          (fun p => (p.1, RtVal.intv p.2))).reverse
        ++ mkArgEnv ed (i0 :: i1 :: irest) (m0 :: m1 :: mrest)) w0
      = some (.intv m0) := hdisc 0 (by simp) (by simp)
  have hg1 : lookupEnv
      ((((w0 :: w1 :: wrest).zip (m0 :: m1 :: mrest)).map
          (fun p => (p.1, RtVal.intv p.2))).reverse
        ++ mkArgEnv ed (i0 :: i1 :: irest) (m0 :: m1 :: mrest)) w1
      = some (.intv m1) := hdisc 1 (by simp) (by simp)
  have hacc : evalE ed
      ((((w0 :: w1 :: wrest).zip (m0 :: m1 :: mrest)).map
          (fun p => (p.1, RtVal.intv p.2))).reverse
        ++ mkArgEnv ed (i0 :: i1 :: irest) (m0 :: m1 :: mrest))
      (.binopEq (.identE w0) (.identE w1)) = .val (.boolv (m0 == m1)) := by
    rw [evalE_binopEq, evalE_identE, hg0, evalE_identE, hg1]
  have hpairs : ∀ p ∈ wrest.zip mrest,
      lookupEnv
          ((((w0 :: w1 :: wrest).zip (m0 :: m1 :: mrest)).map
              (fun p => (p.1, RtVal.intv p.2))).reverse
            ++ mkArgEnv ed (i0 :: i1 :: irest) (m0 :: m1 :: mrest)) p.1
        = some (.intv p.2) := by
    intro p hp
    obtain ⟨k, hk⟩ := List.mem_iff_get.mp hp
    have hk1 : (k : Nat) < wrest.length := by
      have := k.isLt
      simp [List.length_zip] at this
      omega
    have hk2 : (k : Nat) < mrest.length := by
      have := k.isLt
      simp [List.length_zip] at this
      omega
    rw [List.get_zip] at hk
    rw [← hk]
    have := hdisc ((k : Nat) + 2) (by simp; omega) (by simp; omega)
    simpa using this
  have hfoldswap : (wrest.zip (selflikeArgExprs irest)).foldl
        (fun tt p => ExprM.binopAnd tt (.binopEq (.identE w0) (.identE p.1)))
        (.binopEq (.identE w0) (.identE w1))
      = (wrest.zip mrest).foldl
        (fun tt p => ExprM.binopAnd tt (.binopEq (.identE w0) (.identE p.1)))
        (.binopEq (.identE w0) (.identE w1)) := by
    apply foldl_fst_congr (fun t vi => ExprM.binopAnd t (.binopEq (.identE w0) (.identE vi)))
    rw [List.map_fst_zip _ _ (by omega), List.map_fst_zip _ _ (by omega)]
  have htest : evalE ed
      ((((w0 :: w1 :: wrest).zip (m0 :: m1 :: mrest)).map
          (fun p => (p.1, RtVal.intv p.2))).reverse
        ++ mkArgEnv ed (i0 :: i1 :: irest) (m0 :: m1 :: mrest))
      ((wrest.zip (selflikeArgExprs irest)).foldl
        (fun tt p => ExprM.binopAnd tt (.binopEq (.identE w0) (.identE p.1)))
        (.binopEq (.identE w0) (.identE w1)))
      = .val (.boolv ((m0 == m1) && mrest.all fun m => m0 == m)) := by
    rw [hfoldswap]
    rw [evalGuardFold ed _ w0 m0 hg0 (wrest.zip mrest) _ (m0 == m1) hacc hpairs]
    rw [foldl_snd_to_all m0]
    rw [List.map_snd_zip _ _ (by omega)]
  have hcond : ((m0 :: m1 :: mrest).drop 1).all
      (fun m => (m0 :: m1 :: mrest).headD 0 == m)
      = ((m0 == m1) && mrest.all fun m => m0 == m) := by
    simp [List.all_cons]
  rw [hcond]
  rw [evalE_ifE, htest]
  cases hgb : ((m0 == m1) && mrest.all fun m => m0 == m) with
  | false => rfl
  | true =>
      rw [if_pos rfl]
      -- evaluate the match scrutinee
      have henvF : ∀ p ∈ (i0 :: i1 :: irest).zip (m0 :: m1 :: mrest),
          lookupEnv
              ((((w0 :: w1 :: wrest).zip (m0 :: m1 :: mrest)).map
                  (fun p => (p.1, RtVal.intv p.2))).reverse
                ++ mkArgEnv ed (i0 :: i1 :: irest) (m0 :: m1 :: mrest)) p.1
            = some (.refv (mkEnumVal ed p.2)) := by
        intro p hp
        have hpin : p.1 ∈ (i0 :: i1 :: irest) := (List.of_mem_zip hp).1
        have hnotin : p.1 ∉ (w0 :: w1 :: wrest) := by
          rw [← hvis]
          exact hdisj p.1 hpin
        have hnone : lookupEnv
            ((((w0 :: w1 :: wrest).zip (m0 :: m1 :: mrest)).map
                (fun p => (p.1, RtVal.intv p.2))).reverse) p.1 = none := by
          rw [lookupEnv_eq_none_iff]
          intro q hq he
          apply hnotin
          rw [← he, ← hkeys]
          exact List.mem_map_of_mem Prod.fst (List.mem_reverse.mp hq)
        rw [lookupEnv_append_left_none _ _ _ hnone]
        exact mkArgEnv_lookup ed _ _ hndi p hp
      have hscrut := evalArgsTup ed
        ((((w0 :: w1 :: wrest).zip (m0 :: m1 :: mrest)).map
            (fun p => (p.1, RtVal.intv p.2))).reverse
          ++ mkArgEnv ed (i0 :: i1 :: irest) (m0 :: m1 :: mrest))
        (i0 :: i1 :: irest) (m0 :: m1 :: mrest) (by simpa using hlen) henvF
      rw [hargs] at hscrut
      rw [evalE_matchE, evalE_tupE, hscrut]

/-! ## Claim 1: the multi-argument enum dispatch

The claim quantifies over *every* instance method, but with
fieldless-variant unification enabled, matching arguments that hold a
fieldless variant reach the *shared* arm of the representative fieldless
variant, whose `EnumMatching` invocation names the representative — not
necessarily "that variant".  The counterexample: enum `{A, B, C(i32)}` with
unification, inputs `(B, B)` reach `EnumMatching(0, 3, A, [])`.  The
amended claim scopes the per-variant statement to methods without
fieldless-variant unification (the unification behaviour is claim 5). -/

/-- Counterexample to **C1** as stated: with fieldless-variant unification,
both arguments holding variant `B` (index 1) of `{A, B, C(i32)}` reach the
combinator invocation `EnumMatching(0, 3, A, [])`, whose variant is `A`,
not `B`. -/
theorem claim1_counterexample :
    evalBody exEnumABCu (mkArgEnv exEnumABCu exArgIdents [1, 1])
        (expand_enum_method_body exMethodUnify "T" exEnumABCu
          (selflikeArgExprs exArgIdents) csMarker)
      = .reached (.EnumMatching 0 3 exVariantA [])
    ∧ exEnumABCu.variants.get? 1 = some exVariantBu
    ∧ exVariantA.ident ≠ exVariantBu.ident :=
  ⟨rfl, rfl, by decide⟩

/-- **C1 (amended)**: for every enum with more than one variant and every
instance method with two or more self-like arguments and fieldless-variant
unification disabled, the generated body first binds each self-like
argument's runtime discriminant to a fresh local (one `let` per argument,
conclusion 1; the binding names are one per argument, conclusion 2), then
tests all discriminants equal to the first: when all arguments hold the same
variant, evaluation reaches the per-variant arm whose combinator was invoked
with `EnumMatching` for that variant (with an empty field list for a
fieldless variant), and when they hold different variants, evaluation
reaches the branch built from the combinator invoked with
`EnumNonMatchingCollapsed` carrying the discriminant bindings, one per
self-like argument. -/
theorem claim1_enum_multiarg_dispatch (ed : EnumDefM) (md : MethodDefM) (ti : Ident)
    (ids : List Ident) (vals : List Nat)
    (hu : md.unify_fieldless_variants = false)
    (hv : 1 < ed.variants.length)
    (hn : 2 ≤ ids.length)
    (hlen : ids.length = vals.length)
    (hvals : ∀ v ∈ vals, v < ed.variants.length)
    (hndv : (ed.variants.map fun v => v.ident).Nodup)
    (hndi : ids.Nodup)
    (hndvi : (enumViIdents (selflikeArgExprs ids)).Nodup)
    (hdisj : ∀ a ∈ ids, a ∉ enumViIdents (selflikeArgExprs ids)) :
    (expand_enum_method_body md ti ed (selflikeArgExprs ids) csMarker).stmts
      = ((enumViIdents (selflikeArgExprs ids)).zip (selflikeArgExprs ids)).map
          (fun p => StmtM.letIdS p.1 (.discValue (.addrOf p.2)))
    ∧ (enumViIdents (selflikeArgExprs ids)).length = ids.length
    ∧ ((∀ v ∈ vals, v = vals.headD 0) →
        ∃ w, ed.variants.get? (vals.headD 0) = some w ∧
          evalBody ed (mkArgEnv ed ids vals)
              (expand_enum_method_body md ti ed (selflikeArgExprs ids) csMarker)
            = .reached (.EnumMatching (vals.headD 0) ed.variants.length w
                (create_struct_pattern_fields w.data
                  (enumPrefixes (selflikeArgExprs ids)) false)))
    ∧ ((∃ v ∈ vals, v ≠ vals.headD 0) →
        evalBody ed (mkArgEnv ed ids vals)
            (expand_enum_method_body md ti ed (selflikeArgExprs ids) csMarker)
          = .reached (.EnumNonMatchingCollapsed
              (enumViIdents (selflikeArgExprs ids)))) := by
  obtain ⟨i0, i1, irest, rfl⟩ : ∃ i0 i1 irest, ids = i0 :: i1 :: irest := by
    match ids, hn with
    | i0 :: i1 :: irest, _ => exact ⟨i0, i1, irest, rfl⟩
  obtain ⟨m0, m1, mrest, rfl⟩ : ∃ m0 m1 mrest, vals = m0 :: m1 :: mrest := by
    match vals, hlen with
    | m0 :: m1 :: mrest, _ => exact ⟨m0, m1, mrest, rfl⟩
  have hargs : selflikeArgExprs (i0 :: i1 :: irest)
      = .derefE (.identE i0) :: .derefE (.identE i1) :: selflikeArgExprs irest := rfl
  have h2args : 1 < (selflikeArgExprs (i0 :: i1 :: irest)).length := by
    rw [hargs]; simp
  obtain ⟨w0, w1, wrest, hvis⟩ : ∃ w0 w1 wrest,
      enumViIdents (selflikeArgExprs (i0 :: i1 :: irest)) = w0 :: w1 :: wrest :=
    ⟨_, _, _, rfl⟩
  obtain ⟨q1, q2, qrest, hpre⟩ : ∃ q1 q2 qrest,
      enumPrefixes (selflikeArgExprs (i0 :: i1 :: irest)) = q1 :: q2 :: qrest :=
    ⟨_, _, _, rfl⟩
  have hvl : (enumViIdents (selflikeArgExprs (i0 :: i1 :: irest))).length
      = irest.length + 2 := by
    rw [hargs, enumViIdents_length_cons]
    simp [selflikeArgExprs]
  have hpl : (enumPrefixes (selflikeArgExprs (i0 :: i1 :: irest))).length
      = irest.length + 2 := by
    rw [hargs, enumPrefixes_length_cons]
    simp [selflikeArgExprs]
  refine ⟨?_, ?_, ?_, ?_⟩
  · rw [expand_enum_method_body_multi md ti ed _ csMarker hv h2args]
    rw [hvis, hargs, buildDiscriminantCheck_eq]
  · rw [hvl]; simp
  · -- all arguments hold the same variant
    intro hall
    have hhead : (m0 :: m1 :: mrest).headD 0 = m0 := rfl
    rw [hhead]
    have hv0 : m0 < ed.variants.length := hvals m0 (by simp)
    have hv0' : ed.variants.get? m0 = some (ed.variants.get ⟨m0, hv0⟩) :=
      List.get?_eq_get hv0
    refine ⟨ed.variants.get ⟨m0, hv0⟩, hv0', ?_⟩
    rw [evalBody_enum_multi ed md ti (i0 :: i1 :: irest) (m0 :: m1 :: mrest)
      hv hn hlen hndi hndvi hdisj]
    have hguard : (((m0 :: m1 :: mrest).drop 1).all
        fun m => (m0 :: m1 :: mrest).headD 0 == m) = true := by
      simp only [List.all_eq_true]
      intro m hm
      have : m = m0 := hall m (by
        rw [show (m0 :: m1 :: mrest) = m0 :: (m1 :: mrest) from rfl]
        exact List.mem_cons_of_mem m0 hm)
      simp [this]
    rw [hguard, if_pos rfl]
    -- the arms without unification are one arm per variant, then the
    -- defensive unreachable catch-all
    have harms : expandEnumMatchArms md ti ed
        (enumPrefixes (selflikeArgExprs (i0 :: i1 :: irest))) csMarker
        = ed.variants.enum.map (enumVariantArm ti ed
            (enumPrefixes (selflikeArgExprs (i0 :: i1 :: irest))) csMarker) := by
      rw [expandEnumMatchArms]
      rw [show (fun p : Nat × VariantM =>
            !(md.unify_fieldless_variants && p.2.data.fields.isEmpty))
          = fun p => true from by funext p; rw [hu]; simp]
      rw [List.filter_true]
    rw [harms, expandEnumDefaultArm_no_unify md ed _ csMarker hu hv h2args]
    rw [hpre]
    have hwalk := evalArms_indexed ed ti q1 q2 qrest
      ((((enumViIdents (selflikeArgExprs (i0 :: i1 :: irest))).zip
          (m0 :: m1 :: mrest)).map (fun p => (p.1, RtVal.intv p.2))).reverse
        ++ mkArgEnv ed (i0 :: i1 :: irest) (m0 :: m1 :: mrest))
      ((m0 :: m1 :: mrest).map fun v => RtVal.refv (mkEnumVal ed v))
      m0 (ed.variants.get ⟨m0, hv0⟩) hv0' hndv
      (by
        intro x hx
        obtain ⟨v, hvm, rfl⟩ := List.mem_map.mp hx
        rw [hall v hvm]
        rfl)
      (by
        rw [← hpre, hpl]
        have hml : mrest.length = irest.length := by simpa using hlen.symm
        simp [hml])
      ed.variants.enum [(PatM.wildPat, ExprM.unreachableE)]
      (by
        intro q hq
        obtain ⟨qi, qx⟩ := q
        rw [List.get?_eq_getElem?]
        exact List.mk_mem_enum_iff_getElem?.mp hq)
    rw [hwalk]
    have hany : (ed.variants.enum.any fun q => q.1 == m0) = true := by
      rw [List.any_eq_true]
      refine ⟨(m0, ed.variants.get ⟨m0, hv0⟩), ?_, by simp⟩
      rw [List.mk_mem_enum_iff_getElem?, ← List.get?_eq_getElem?]
      exact hv0'
    rw [hany, if_pos rfl]
  · -- some argument holds a different variant
    intro ⟨v, hvm, hvne⟩
    rw [evalBody_enum_multi ed md ti (i0 :: i1 :: irest) (m0 :: m1 :: mrest)
      hv hn hlen hndi hndvi hdisj]
    have hguard : (((m0 :: m1 :: mrest).drop 1).all
        fun m => (m0 :: m1 :: mrest).headD 0 == m) = false := by
      have hhead : (m0 :: m1 :: mrest).headD 0 = m0 := rfl
      cases hgb : (((m0 :: m1 :: mrest).drop 1).all
          fun m => (m0 :: m1 :: mrest).headD 0 == m) with
      | false => rfl
      | true =>
          exfalso
          rw [List.all_eq_true] at hgb
          have hvtail : v ∈ m1 :: mrest := by
            cases List.mem_cons.mp hvm with
            | inl h => exact absurd (h.trans hhead.symm) hvne
            | inr h => exact h
          have := hgb v (by simpa using hvtail)
          rw [hhead] at this
          exact hvne (eq_of_beq this).symm
    rw [hguard]
    rfl

/-- Witness for the amended C1 on the enum `{A, B(i32), C(i32, i32)}` with
two self-like arguments: inputs `(B(1), B(1))` reach `EnumMatching` for `B`;
inputs `(A, B(1))` reach the collapsed branch with the two discriminant
bindings; inputs `(A, A)` reach `EnumMatching` for `A` with an empty field
list. -/
theorem claim1_witness :
    (∃ w, exEnumABC.variants.get? 1 = some w ∧
      evalBody exEnumABC (mkArgEnv exEnumABC exArgIdents [1, 1])
          (expand_enum_method_body exMethod "T" exEnumABC
            (selflikeArgExprs exArgIdents) csMarker)
        = .reached (.EnumMatching 1 3 w
            (create_struct_pattern_fields w.data
              (enumPrefixes (selflikeArgExprs exArgIdents)) false)))
    ∧ evalBody exEnumABC (mkArgEnv exEnumABC exArgIdents [0, 1])
          (expand_enum_method_body exMethod "T" exEnumABC
            (selflikeArgExprs exArgIdents) csMarker)
        = .reached (.EnumNonMatchingCollapsed
            (enumViIdents (selflikeArgExprs exArgIdents)))
    ∧ (∃ w, exEnumABC.variants.get? 0 = some w ∧
        evalBody exEnumABC (mkArgEnv exEnumABC exArgIdents [0, 0])
            (expand_enum_method_body exMethod "T" exEnumABC
              (selflikeArgExprs exArgIdents) csMarker)
          = .reached (.EnumMatching 0 3 w
              (create_struct_pattern_fields w.data
                (enumPrefixes (selflikeArgExprs exArgIdents)) false))) :=
  ⟨(claim1_enum_multiarg_dispatch exEnumABC exMethod "T" exArgIdents [1, 1]
      rfl (by decide) (by decide) (by decide) (by decide) (by decide) (by decide)
      (by decide) (by decide)).2.2.1 (by decide),
   (claim1_enum_multiarg_dispatch exEnumABC exMethod "T" exArgIdents [0, 1]
      rfl (by decide) (by decide) (by decide) (by decide) (by decide) (by decide)
      (by decide) (by decide)).2.2.2 ⟨1, by decide, by decide⟩,
   (claim1_enum_multiarg_dispatch exEnumABC exMethod "T" exArgIdents [0, 0]
      rfl (by decide) (by decide) (by decide) (by decide) (by decide) (by decide)
      (by decide) (by decide)).2.2.1 (by decide)⟩

/-! ## Claim 5: fieldless-variant unification -/

theorem enumFrom_filter_length {α : Type} (q : α → Bool) :
    ∀ (l : List α) (k : Nat),
      ((List.enumFrom k l).filter fun p => q p.2).length = (l.filter q).length
  | [], _ => rfl
  | x :: l', k => by
      rw [show List.enumFrom k (x :: l') = (k, x) :: List.enumFrom (k + 1) l' from rfl]
      rw [List.filter_cons, List.filter_cons]
      cases hq : q x with
      | false => simpa using enumFrom_filter_length q l' (k + 1)
      | true => simpa using enumFrom_filter_length q l' (k + 1)

/-- **C5**: with fieldless-variant unification enabled (and at least one
fieldless variant, whose first occurrence is `rep`), the generated match has
one per-variant arm per *fielded* variant only (conclusion 1 — no per-variant
arm for any fieldless variant), plus exactly one shared default arm whose
combinator invocation is `EnumMatching(0, count, rep, [])` (conclusion 2);
and for every fieldless variant `v0`, homogeneous inputs holding `v0` reach
that same shared invocation (conclusion 3) — the invocation names only the
representative and the empty field list, so the combinator cannot observe
which fieldless variant was matched. -/
theorem claim5_fieldless_unification (ed : EnumDefM) (md : MethodDefM) (ti : Ident)
    (ids : List Ident) (rep : VariantM)
    (hu : md.unify_fieldless_variants = true)
    (hv : 1 < ed.variants.length)
    (hn : 2 ≤ ids.length)
    (hrep : ed.variants.find? (fun v => v.data.fields.isEmpty) = some rep)
    (hndv : (ed.variants.map fun v => v.ident).Nodup)
    (hndi : ids.Nodup)
    (hndvi : (enumViIdents (selflikeArgExprs ids)).Nodup)
    (hdisj : ∀ a ∈ ids, a ∉ enumViIdents (selflikeArgExprs ids)) :
    (expandEnumMatchArms md ti ed (enumPrefixes (selflikeArgExprs ids)) csMarker).length
      = (ed.variants.filter fun v => !v.data.fields.isEmpty).length
    ∧ expandEnumDefaultArm md ed (selflikeArgExprs ids) csMarker
      = some (.combCall (.EnumMatching 0 ed.variants.length rep []))
    ∧ ∀ (v0 : Nat) (hv0 : v0 < ed.variants.length),
        (ed.variants.get ⟨v0, hv0⟩).data.fields.isEmpty = true →
        evalBody ed (mkArgEnv ed ids (List.replicate ids.length v0))
            (expand_enum_method_body md ti ed (selflikeArgExprs ids) csMarker)
          = .reached (.EnumMatching 0 ed.variants.length rep []) := by
  refine ⟨?_, expandEnumDefaultArm_unify md ed _ rep hu hrep, ?_⟩
  · rw [expandEnumMatchArms]
    rw [show (fun p : Nat × VariantM =>
          !(md.unify_fieldless_variants && p.2.data.fields.isEmpty))
        = fun p => !p.2.data.fields.isEmpty from by funext p; rw [hu]; simp]
    rw [List.length_map]
    exact enumFrom_filter_length (fun v => !v.data.fields.isEmpty) ed.variants 0
  · intro v0 hv0 hfieldless
    have hv0' : ed.variants.get? v0 = some (ed.variants.get ⟨v0, hv0⟩) :=
      List.get?_eq_get hv0
    obtain ⟨i0, i1, irest, rfl⟩ : ∃ i0 i1 irest, ids = i0 :: i1 :: irest := by
      match ids, hn with
      | i0 :: i1 :: irest, _ => exact ⟨i0, i1, irest, rfl⟩
    obtain ⟨q1, q2, qrest, hpre⟩ : ∃ q1 q2 qrest,
        enumPrefixes (selflikeArgExprs (i0 :: i1 :: irest)) = q1 :: q2 :: qrest :=
      ⟨_, _, _, rfl⟩
    have hpl : (enumPrefixes (selflikeArgExprs (i0 :: i1 :: irest))).length
        = irest.length + 2 := by
      rw [show selflikeArgExprs (i0 :: i1 :: irest)
          = .derefE (.identE i0) :: .derefE (.identE i1) :: selflikeArgExprs irest
          from rfl, enumPrefixes_length_cons]
      simp [selflikeArgExprs]
    rw [evalBody_enum_multi ed md ti (i0 :: i1 :: irest)
      (List.replicate (i0 :: i1 :: irest).length v0) hv hn (by simp)
      hndi hndvi hdisj]
    have hguard : ((List.replicate (i0 :: i1 :: irest).length v0).drop 1).all
        (fun m => (List.replicate (i0 :: i1 :: irest).length v0).headD 0 == m)
        = true := by
      rw [List.all_eq_true]
      intro m hm
      have hm' : m ∈ List.replicate (i0 :: i1 :: irest).length v0 :=
        List.mem_of_mem_drop hm
      rw [List.eq_of_mem_replicate hm']
      rw [show List.replicate (i0 :: i1 :: irest).length v0
          = v0 :: List.replicate (i1 :: irest).length v0 from rfl]
      simp
    rw [hguard, if_pos rfl]
    have harms : expandEnumMatchArms md ti ed
        (enumPrefixes (selflikeArgExprs (i0 :: i1 :: irest))) csMarker
        = (ed.variants.enum.filter fun p => !p.2.data.fields.isEmpty).map
            (enumVariantArm ti ed
              (enumPrefixes (selflikeArgExprs (i0 :: i1 :: irest))) csMarker) := by
      rw [expandEnumMatchArms]
      rw [show (fun p : Nat × VariantM =>
            !(md.unify_fieldless_variants && p.2.data.fields.isEmpty))
          = fun p => !p.2.data.fields.isEmpty from by funext p; rw [hu]; simp]
    rw [harms, expandEnumDefaultArm_unify md ed _ rep hu hrep]
    rw [hpre]
    have hwalk := evalArms_indexed ed ti q1 q2 qrest
      ((((enumViIdents (selflikeArgExprs (i0 :: i1 :: irest))).zip
          (List.replicate (i0 :: i1 :: irest).length v0)).map
            (fun p => (p.1, RtVal.intv p.2))).reverse
        ++ mkArgEnv ed (i0 :: i1 :: irest)
            (List.replicate (i0 :: i1 :: irest).length v0))
      ((List.replicate (i0 :: i1 :: irest).length v0).map
        fun v => RtVal.refv (mkEnumVal ed v))
      v0 (ed.variants.get ⟨v0, hv0⟩) hv0' hndv
      (by
        intro x hx
        obtain ⟨v, hvm, rfl⟩ := List.mem_map.mp hx
        rw [List.eq_of_mem_replicate hvm])
      (by
        rw [← hpre, hpl]
        simp)
      (ed.variants.enum.filter fun p => !p.2.data.fields.isEmpty)
      [(PatM.wildPat, ExprM.combCall (.EnumMatching 0 ed.variants.length rep []))]
      (by
        intro q hq
        obtain ⟨qi, qx⟩ := q
        rw [List.get?_eq_getElem?]
        exact List.mk_mem_enum_iff_getElem?.mp (List.mem_of_mem_filter hq))
    rw [hwalk]
    have hany : ((ed.variants.enum.filter fun p => !p.2.data.fields.isEmpty).any
        fun q => q.1 == v0) = false := by
      cases hany' : ((ed.variants.enum.filter fun p => !p.2.data.fields.isEmpty).any
          fun q => q.1 == v0) with
      | false => rfl
      | true =>
          exfalso
          rw [List.any_eq_true] at hany'
          obtain ⟨q, hqmem, hqeq⟩ := hany'
          have hqv : q.1 = v0 := by simpa using hqeq
          have hhq := List.mem_filter.mp hqmem
          have hget : ed.variants.get? q.1 = some q.2 := by
            obtain ⟨qi, qx⟩ := q
            rw [List.get?_eq_getElem?]
            exact List.mk_mem_enum_iff_getElem?.mp hhq.1
          rw [hqv, hv0'] at hget
          have hq2 : q.2 = ed.variants.get ⟨v0, hv0⟩ := (Option.some.inj hget).symm
          rw [hq2] at hhq
          rw [hfieldless] at hhq
          simpa using hhq.2
    rw [hany]
    rw [if_neg (by simp)]
    rw [evalArms_cons, if_pos (patMatches_wild ed _), evalE_combCall]

/-- Witness for C5 on the enum `{A, B, C(i32)}`: both `(A, A)` and `(B, B)`
reach the same shared invocation `EnumMatching(0, 3, A, [])`, and the match
has exactly one per-variant arm (for `C`). -/
theorem claim5_witness :
    (expandEnumMatchArms exMethodUnify "T" exEnumABCu
        (enumPrefixes (selflikeArgExprs exArgIdents)) csMarker).length
      = (exEnumABCu.variants.filter fun v => !v.data.fields.isEmpty).length
    ∧ expandEnumDefaultArm exMethodUnify exEnumABCu (selflikeArgExprs exArgIdents)
        csMarker = some (.combCall (.EnumMatching 0 3 exVariantA []))
    ∧ evalBody exEnumABCu (mkArgEnv exEnumABCu exArgIdents [0, 0])
        (expand_enum_method_body exMethodUnify "T" exEnumABCu
          (selflikeArgExprs exArgIdents) csMarker)
      = .reached (.EnumMatching 0 3 exVariantA [])
    ∧ evalBody exEnumABCu (mkArgEnv exEnumABCu exArgIdents [1, 1])
        (expand_enum_method_body exMethodUnify "T" exEnumABCu
          (selflikeArgExprs exArgIdents) csMarker)
      = .reached (.EnumMatching 0 3 exVariantA []) := by
  have h := claim5_fieldless_unification exEnumABCu exMethodUnify "T" exArgIdents
    exVariantA rfl (by decide) (by decide) rfl (by decide) (by decide)
    (by decide) (by decide)
  refine ⟨h.1, h.2.1, ?_, ?_⟩
  · exact h.2.2 0 (by decide) (by decide)
  · exact h.2.2 1 (by decide) (by decide)

end DerivingGeneric
